import Mathlib

/-!
Shallow embedding of the Polymarket multi-slot monitor
(src/crypto_monitor.py) and its persistence layer (src/trade_logger.py).

Conventions of the embedding:
* Python floats are modelled as rationals; all price arithmetic in the
  source is comparisons, +, -, *, / which the claims treat exactly.
* Python dicts are modelled as association lists; assignment preserves the
  position of an existing key and appends a new key, matching dict
  insertion-order semantics.
* Wall-clock instants (datetime / time.time) are modelled as integers.
* The SQLite trades table is a list of (id, row) pairs with an
  autoincrement counter; the price_ticks history table is not modelled
  (no claim mentions it), but record_tick's update of the trades row is.
* Fallible paths (a Python exception escaping a handler) are modelled with
  an explicit error outcome carrying the partially mutated state.
-/

/- Batteries seals the rational operations against unfolding; concrete runs
of the embedded program are evaluated by reduction, so restore the default
reducibility (soundness is unaffected: the kernel ignores reducibility). -/
set_option allowUnsafeReducibility true
attribute [semireducible] Rat.add Rat.mul Rat.sub Rat.div Rat.inv Rat.ofScientific

namespace CryptoMonitor

/- ── Constants (src/crypto_monitor.py lines 35-39, trade_logger.py line 15) ── -/

def TRADE_AMOUNT : ℚ := 30
def LIMIT_OFFSET : ℚ := 0.05
def CRYPTOS : List String := ["BTC", "ETH", "SOL", "XRP"]
def WINDOW_SIZE : Nat := 5
def MAX_CONCURRENT_SLOTS : Nat := 2
def STARTING_EQUITY : ℚ := 1000

/- ── Association-list primitives modelling Python dict / SQL row access ── -/

def alookup {α β : Type} [DecidableEq α] (k : α) : List (α × β) → Option β
  | [] => none
  | (a, b) :: rest => if a = k then some b else alookup k rest

/-- Remove every binding of key k (dict.pop / final cleanup). -/
def aerase {α β : Type} [DecidableEq α] (k : α) : List (α × β) → List (α × β)
  | [] => []
  | (a, b) :: rest => if a = k then aerase k rest else (a, b) :: aerase k rest

/-- Replace the value at the first occurrence of key k, keeping its position
(models in-place mutation of an existing dict entry / SQL UPDATE by key). -/
def aupdate {α β : Type} [DecidableEq α] (k : α) (v : β) : List (α × β) → List (α × β)
  | [] => []
  | (a, b) :: rest => if a = k then (a, v) :: rest else (a, b) :: aupdate k v rest

/-- Python dict assignment: update in place when the key exists, append otherwise. -/
def dset {α β : Type} [DecidableEq α] (k : α) (v : β) (l : List (α × β)) : List (α × β) :=
  if (alookup k l).isSome then aupdate k v l else l ++ [(k, v)]

/- ── trade_logger.py: the trades table ──────────────────────────────── -/

/-- One row of the trades table (the columns the monitor reads or writes;
presentation-only columns such as the EST time strings are omitted). -/
structure TradeRow where
  slot_label : String
  asset : String
  side_chosen : String
  token_id : String
  entry_time : ℤ
  entry_price : ℚ
  yes_price_at_entry : ℚ
  no_price_at_entry : ℚ
  shares : ℚ
  limit_sell_price : ℚ
  min_price : ℚ
  max_price : ℚ
  num_price_updates : ℕ
  max_adverse_pct : ℚ
  max_favorable_pct : ℚ
  exit_price : Option ℚ
  exit_time : Option ℤ
  exit_reason : Option String
  fill_latency_sec : Option ℤ
  pnl_usd : ℚ
  pnl_pct : ℚ
  outcome : String
  equity_before : ℚ
  equity_after : ℚ
deriving Repr, DecidableEq

structure TradeDB where
  rows : List (ℕ × TradeRow)
  next_id : ℕ
deriving Repr, DecidableEq

/-- trade_logger.get_current_equity: starting equity plus the P&L of all
resolved (non-pending) trades. -/
def get_current_equity (db : TradeDB) : ℚ :=
  STARTING_EQUITY +
    ((db.rows.filter (fun p => decide (p.2.outcome ≠ "pending"))).map (fun p => p.2.pnl_usd)).sum

/-- trade_logger.open_trade: insert a new pending row, return its id. -/
def open_trade (db : TradeDB) (now : ℤ) (slot_label asset side_chosen token_id : String)
    (entry_price yes_price no_price shares limit_sell_price : ℚ) : TradeDB × ℕ :=
  let equity := get_current_equity db
  let row : TradeRow :=
    { slot_label := slot_label, asset := asset, side_chosen := side_chosen,
      token_id := token_id, entry_time := now,
      entry_price := entry_price, yes_price_at_entry := yes_price,
      no_price_at_entry := no_price, shares := shares,
      limit_sell_price := limit_sell_price,
      min_price := entry_price, max_price := entry_price,
      num_price_updates := 0, max_adverse_pct := 0, max_favorable_pct := 0,
      exit_price := none, exit_time := none, exit_reason := none,
      fill_latency_sec := none, pnl_usd := 0, pnl_pct := 0,
      outcome := "pending", equity_before := equity, equity_after := 0 }
  ({ rows := db.rows ++ [(db.next_id, row)], next_id := db.next_id + 1 }, db.next_id)

/-- trade_logger.record_tick: update excursion stats of the row (the insert
into the separate price_ticks history table is not modelled). Returns mid. -/
def record_tick (db : TradeDB) (trade_id : ℕ) (bid ask : ℚ) : TradeDB × ℚ :=
  let mid := (bid + ask) / 2
  match alookup trade_id db.rows with
  | none => (db, mid)
  | some row =>
    let entry := row.entry_price
    let new_min := min row.min_price mid
    let new_max := max row.max_price mid
    let adverse_pct := if entry > 0 then (entry - new_min) / entry * 100 else 0
    let favorable_pct := if entry > 0 then (new_max - entry) / entry * 100 else 0
    let row' := { row with
      min_price := new_min, max_price := new_max,
      max_adverse_pct := adverse_pct, max_favorable_pct := favorable_pct,
      num_price_updates := row.num_price_updates + 1 }
    ({ db with rows := aupdate trade_id row' db.rows }, mid)

structure CloseResult where
  trade_id : ℕ
  exit_price : ℚ
  exit_reason : String
  pnl_usd : ℚ
  pnl_pct : ℚ
  outcome : String
  fill_latency_sec : ℤ
  equity_after : ℚ
deriving Repr, DecidableEq

/-- The exit columns close_trade writes into a row: exit price, time and
reason, fill latency, P&L, win/loss outcome, and equity after. -/
def closedRow (row : TradeRow) (now : ℤ) (xp : ℚ) (reason : String) : TradeRow :=
  let latency := now - row.entry_time
  let pnl_usd := (xp - row.entry_price) * row.shares
  let pnl_pct := if row.entry_price > 0 then (xp - row.entry_price) / row.entry_price * 100
    else 0
  { row with
    exit_price := some xp, exit_time := some now,
    exit_reason := some reason, fill_latency_sec := some latency,
    pnl_usd := pnl_usd, pnl_pct := pnl_pct,
    outcome := if pnl_usd ≥ 0 then "win" else "loss",
    equity_after := row.equity_before + pnl_usd }

/-- trade_logger.close_trade: look the row up by id (no check of its current
outcome), compute P&L, latency and outcome, write the exit columns, and
return the result record; None only when the id is unknown. -/
def close_trade (db : TradeDB) (now : ℤ) (trade_id : ℕ) (exit_price : ℚ)
    (exit_reason : String) : TradeDB × Option CloseResult :=
  match alookup trade_id db.rows with
  | none => (db, none)
  | some row =>
    let latency := now - row.entry_time
    let entry := row.entry_price
    let shares := row.shares
    let pnl_usd := (exit_price - entry) * shares
    let pnl_pct := if entry > 0 then (exit_price - entry) / entry * 100 else 0
    let outcome := if pnl_usd ≥ 0 then "win" else "loss"
    let equity_after := row.equity_before + pnl_usd
    ({ db with rows := aupdate trade_id (closedRow row now exit_price exit_reason) db.rows },
     some { trade_id := trade_id, exit_price := exit_price, exit_reason := exit_reason,
            pnl_usd := pnl_usd, pnl_pct := pnl_pct, outcome := outcome,
            fill_latency_sec := latency, equity_after := equity_after })

structure Stats where
  total_trades : ℕ
  wins : ℕ
  losses : ℕ
  pending : ℕ
  total_pnl : ℚ
  equity : ℚ
  win_rate : ℚ
deriving Repr, DecidableEq

/-- trade_logger.get_stats (the counters and ratios the claims mention;
the latency / excursion averages are omitted). -/
def get_stats (db : TradeDB) : Stats :=
  let wins := (db.rows.filter (fun p => decide (p.2.outcome = "win"))).length
  let losses := (db.rows.filter (fun p => decide (p.2.outcome = "loss"))).length
  let pending := (db.rows.filter (fun p => decide (p.2.outcome = "pending"))).length
  let total_pnl :=
    ((db.rows.filter (fun p => decide (p.2.outcome ≠ "pending"))).map (fun p => p.2.pnl_usd)).sum
  { total_trades := db.rows.length, wins := wins, losses := losses, pending := pending,
    total_pnl := total_pnl,
    equity := STARTING_EQUITY + total_pnl,
    win_rate := if wins + losses > 0 then (wins : ℚ) / ((wins : ℚ) + (losses : ℚ)) * 100 else 0 }

/- ── crypto_monitor.py: slots and side selection ───────────────────── -/

/-- A parsed slot: label, start and end instants, and the per-crypto pair of
(yes token id, no token id). parse_markets_file only emits slots with all
four cryptos present, so markets is accessed assuming presence. -/
structure Slot where
  label : String
  start_dt : ℤ
  end_dt : ℤ
  markets : List (String × (String × String))
deriving Repr, DecidableEq

/-- crypto_monitor.build_slot_queue: slots starting strictly in the future,
falling back to the last WINDOW_SIZE slots, truncated to WINDOW_SIZE.
The catalog (the global all_slots, sorted by parse_markets_file) is a
parameter. -/
def build_slot_queue (all_slots : List Slot) (now : ℤ) : List Slot :=
  let upcoming := all_slots.filter (fun sl => decide (now < sl.start_dt))
  let upcoming := if upcoming.isEmpty
    then all_slots.drop (all_slots.length - WINDOW_SIZE) else upcoming
  upcoming.take WINDOW_SIZE

structure Selection where
  token_id : String
  side : String
  entry_price : ℚ
  yes_price : ℚ
  no_price : ℚ
deriving Repr, DecidableEq

/-- The per-crypto body of the selection loop in select_winning_sides:
with both fetched prices in hand, pick YES when yes_price >= no_price,
else NO; the entry price is the winner's fetched price. -/
def selOf (slot : Slot) (fetch : String → ℚ) (crypto : String) : Selection :=
  let ids := (alookup crypto slot.markets).getD ("", "")
  let yes_price := fetch ids.1
  let no_price := fetch ids.2
  if yes_price ≥ no_price then
    { token_id := ids.1, side := "YES", entry_price := yes_price,
      yes_price := yes_price, no_price := no_price }
  else
    { token_id := ids.2, side := "NO", entry_price := no_price,
      yes_price := yes_price, no_price := no_price }

/-- crypto_monitor.select_winning_sides: per crypto, fetch both prices
(fetch abstracts fetch_price, which returns 0 on any failure) and select
the winning side. -/
def select_winning_sides (slot : Slot) (fetch : String → ℚ) : List (String × Selection) :=
  CRYPTOS.map (fun crypto => (crypto, selOf slot fetch crypto))

/- ── crypto_monitor.py: shared mutable state ───────────────────────── -/

structure PriceEntry where
  bid : ℚ
  ask : ℚ
  mid : ℚ
deriving Repr, DecidableEq

/-- The per-token trade dict stored in token_to_trade. -/
structure TradeInfo where
  trade_id : ℕ
  crypto : String
  side : String
  entry_price : ℚ
  limit_sell : ℚ
  shares : ℚ
  slot_label : String
  closed : Bool
deriving Repr, DecidableEq

/-- The module-level mutable state of crypto_monitor plus the trades DB. -/
structure MonState where
  prices : List (String × PriceEntry)
  token_to_label : List (String × String)
  token_to_trade : List (String × TradeInfo)
  active_slots : List Slot
  slot_queue : List Slot
  last_tick_print : List (String × ℤ)
  ws_msg_count : ℕ
  db : TradeDB
deriving Repr, DecidableEq

/-- Observable side effects of the monitor towards its collaborators.
subscribeOp and unsubscribeOp are the batched WS operations (dropped by
send_subscribe and send_unsubscribe when the socket is down; the effect
records that the operation was requested). -/
inductive Effect
  | recordTick (trade_id : ℕ) (bid ask : ℚ)
  | dbCloseCall (trade_id : ℕ) (exit_price : ℚ) (reason : String)
  | alertLimitHit (crypto side : String) (bid : ℚ)
  | alertTradeOpened (crypto side : String) (entry : ℚ)
  | alertLimitSellPlaced (crypto side : String) (limit : ℚ)
  | alertSlotSummary (label : String) (results : List CloseResult)
  | subscribeOp (tokens : List String)
  | unsubscribeOp (tokens : List String)
  | printTick (token : String)
deriving Repr, DecidableEq

/- ── crypto_monitor.on_message ─────────────────────────────────────── -/

/-- Decoded JSON values. String-encoded numeric fields are not modelled:
numeric fields carry jnum directly. -/
inductive JVal
  | jnull
  | jbool (b : Bool)
  | jnum (q : ℚ)
  | jstr (s : String)
  | jarr (xs : List JVal)
  | jobj (fields : List (String × JVal))
deriving Repr

def jget (fields : List (String × JVal)) (k : String) : Option JVal :=
  alookup k fields

/-- Whether item.get("event_type") equals the string "best_bid_ask". -/
def isBestBidAsk : Option JVal → Bool
  | some (.jstr s) => s = "best_bid_ask"
  | _ => false

/-- item.get("asset_id", "") used as a dict key: a missing field gives "",
a non-string value can never equal a string key (modelled as none). -/
def tokenKey : Option JVal → Option String
  | none => some ""
  | some (.jstr s) => some s
  | some _ => none

/-- Python float(x) on a field value, with float(0) for a missing field;
a non-numeric value raises (none). -/
def floatOf : Option JVal → Option ℚ
  | none => some 0
  | some (.jnum q) => some q
  | some (.jbool b) => some (if b then 1 else 0)
  | some _ => none

/-- Outcome of processing one item of a WS message: continue with the next
item, break out of the whole loop, or an exception escaping on_message. -/
inductive ItemOutcome
  | ok
  | brk
  | err
deriving Repr, DecidableEq

/-- One iteration of the item loop in on_message (lines 282-336). -/
def itemStep (s₀ : MonState) (now : ℤ) (item : JVal) : MonState × List Effect × ItemOutcome :=
  let s := { s₀ with ws_msg_count := s₀.ws_msg_count + 1 }
  match item with
  | .jobj fields =>
    if !(isBestBidAsk (jget fields "event_type")) then (s, [], .ok)
    else
      match tokenKey (jget fields "asset_id") with
      | none => (s, [], .ok)
      | some token_id =>
        match alookup token_id s.token_to_label with
        | none => (s, [], .ok)
        | some label =>
          match floatOf (jget fields "best_bid"), floatOf (jget fields "best_ask") with
          | some bid, some ask =>
            let mid := (bid + ask) / 2
            let s := { s with prices := dset token_id ⟨bid, ask, mid⟩ s.prices }
            let parts := label.splitOn " "
            let crypto := (parts.get? 0).getD ""
            let side := (parts.get? 1).getD ""
            let last := (alookup token_id s.last_tick_print).getD 0
            let printPair : MonState × List Effect :=
              if now - last ≥ 5 then
                ({ s with last_tick_print := dset token_id now s.last_tick_print },
                 [Effect.printTick token_id])
              else (s, [])
            let s := printPair.1
            let printEffs := printPair.2
            match alookup token_id s.token_to_trade with
            | none => (s, printEffs, .ok)
            | some trade =>
              let s := { s with db := (record_tick s.db trade.trade_id bid ask).1 }
              let effs := printEffs ++ [Effect.recordTick trade.trade_id bid ask]
              if bid ≥ trade.limit_sell ∧ trade.closed = false then
                let trade' := { trade with closed := true }
                let s := { s with token_to_trade := dset token_id trade' s.token_to_trade }
                let closePair := close_trade s.db now trade.trade_id bid "limit_hit"
                let s := { s with db := closePair.1 }
                let effs := effs ++ [Effect.dbCloseCall trade.trade_id bid "limit_hit"]
                let effs := match closePair.2 with
                  | some _ => effs ++ [Effect.alertLimitHit crypto side bid]
                  | none => effs
                let effs := effs ++ [Effect.unsubscribeOp [token_id]]
                let s := { s with
                  token_to_trade := aerase token_id s.token_to_trade,
                  token_to_label := aerase token_id s.token_to_label,
                  last_tick_print := aerase token_id s.last_tick_print }
                (s, effs, .brk)
              else (s, effs, .ok)
          | _, _ => (s, [], .err)
  | _ => (s, [], .err)

/-- The item loop of on_message: stops at a break (limit-hit close) and at
an uncaught exception; the Bool records whether an exception escaped. -/
def runItems (s : MonState) (now : ℤ) : List JVal → MonState × List Effect × Bool
  | [] => (s, [], false)
  | item :: rest =>
    let r := itemStep s now item
    match r.2.2 with
    | .ok =>
      let r' := runItems r.1 now rest
      (r'.1, r.2.1 ++ r'.2.1, r'.2.2)
    | .brk => (r.1, r.2.1, false)
    | .err => (r.1, r.2.1, true)

/-- crypto_monitor.on_message. The argument models json.loads: none is a
JSONDecodeError (silently dropped); a decoded list is iterated item by
item, any other value is wrapped in a singleton list. The Bool is true
when an exception escapes the handler. -/
def on_message (s : MonState) (now : ℤ) (decoded : Option JVal) :
    MonState × List Effect × Bool :=
  match decoded with
  | none => (s, [], false)
  | some (.jarr xs) => runItems s now xs
  | some v => runItems s now [v]

/- ── crypto_monitor.py: slot activation and closing ────────────────── -/

/-- The per-crypto body of the trade-opening loop in activate_slot_trades:
skip a crypto whose selected entry price is not positive, otherwise open a
DB trade and register both subscription maps. The accumulator carries
(state, effects, added tokens). -/
def activateStep (slot : Slot) (selections : List (String × Selection)) (now : ℤ)
    (acc : MonState × List Effect × List String) (crypto : String) :
    MonState × List Effect × List String :=
  match alookup crypto selections with
  | none => acc
  | some sel =>
    let entry := sel.entry_price
    if entry ≤ 0 then acc
    else
      let s := acc.1
      let shares := TRADE_AMOUNT / entry
      let limit_sell := entry + LIMIT_OFFSET
      let opened := open_trade s.db now slot.label crypto sel.side sel.token_id
        entry sel.yes_price sel.no_price shares limit_sell
      let tr : TradeInfo :=
        { trade_id := opened.2, crypto := crypto, side := sel.side,
          entry_price := entry, limit_sell := limit_sell, shares := shares,
          slot_label := slot.label, closed := false }
      ({ s with db := opened.1,
                token_to_label := dset sel.token_id (crypto ++ " " ++ sel.side) s.token_to_label,
                token_to_trade := dset sel.token_id tr s.token_to_trade },
       acc.2.1 ++ [Effect.alertTradeOpened crypto sel.side entry,
                   Effect.alertLimitSellPlaced crypto sel.side limit_sell],
       acc.2.2 ++ [sel.token_id])

/-- crypto_monitor.activate_slot_trades: per crypto with positive entry
price, open a DB trade, register both subscription maps, then one batched
subscribe for the added tokens. -/
def activate_slot_trades (s₀ : MonState) (slot : Slot) (fetch : String → ℚ) (now : ℤ) :
    MonState × List Effect :=
  let selections := select_winning_sides slot fetch
  let r := CRYPTOS.foldl (activateStep slot selections now) (s₀, [], [])
  if r.2.2.isEmpty then (r.1, r.2.1)
  else (r.1, r.2.1 ++ [Effect.subscribeOp r.2.2])

/-- One iteration of the trade loop in close_slot_trades; the accumulator
carries (state, effects, tokens_to_remove, results). prices is read from
the state at entry of close_slot_trades (nothing mutates it during the
loop). -/
def closeSweepStep (slot : Slot) (pricesAtEntry : List (String × PriceEntry)) (now : ℤ)
    (acc : MonState × List Effect × List String × List CloseResult)
    (p : String × TradeInfo) : MonState × List Effect × List String × List CloseResult :=
  if p.2.slot_label ≠ slot.label then acc
  else
    let toRemove := acc.2.2.1 ++ [p.1]
    if p.2.closed then (acc.1, acc.2.1, toRemove, acc.2.2.2)
    else
      let tr' := { p.2 with closed := true }
      let st := { acc.1 with token_to_trade := dset p.1 tr' acc.1.token_to_trade }
      let last_bid := ((alookup p.1 pricesAtEntry).map PriceEntry.bid).getD p.2.entry_price
      let closePair := close_trade st.db now p.2.trade_id last_bid "slot_expired"
      let st := { st with db := closePair.1 }
      let effs := acc.2.1 ++ [Effect.dbCloseCall p.2.trade_id last_bid "slot_expired"]
      match closePair.2 with
      | some r => (st, effs, toRemove, acc.2.2.2 ++ [r])
      | none => (st, effs, toRemove, acc.2.2.2)

/-- crypto_monitor.close_slot_trades: close every still-open trade of the
slot (already-closed ones are skipped but still scheduled for removal),
send one slot summary alert if any closed, then remove all the slot's
tokens from both maps and send one batched unsubscribe. -/
def close_slot_trades (s : MonState) (slot : Slot) (now : ℤ) : MonState × List Effect :=
  let r := s.token_to_trade.foldl (closeSweepStep slot s.prices now) (s, [], [], [])
  let st := r.1
  let effs := if r.2.2.2.isEmpty then r.2.1
    else r.2.1 ++ [Effect.alertSlotSummary slot.label r.2.2.2]
  let st := { st with
    token_to_trade := r.2.2.1.foldl (fun m t => aerase t m) st.token_to_trade,
    token_to_label := r.2.2.1.foldl (fun m t => aerase t m) st.token_to_label }
  if r.2.2.1.isEmpty then (st, effs)
  else (st, effs ++ [Effect.unsubscribeOp r.2.2.1])

/- ── crypto_monitor.py: the scheduler ──────────────────────────────── -/

/-- The while loop of maintain_active_slots, recursing on the queue:
while the active set is below MAX_CONCURRENT_SLOTS, pop the next slot,
skip it if already ended, otherwise append it and activate its trades.
Returns (state, effects, remaining queue). -/
def topUpLoop (s : MonState) (fetch : String → ℚ) (now : ℤ) :
    List Slot → MonState × List Effect × List Slot
  | [] => (s, [], [])
  | next :: rest =>
    if s.active_slots.length < MAX_CONCURRENT_SLOTS then
      if next.end_dt ≤ now then topUpLoop s fetch now rest
      else
        let s₁ := { s with active_slots := s.active_slots ++ [next] }
        let act := activate_slot_trades s₁ next fetch now
        let r := topUpLoop act.1 fetch now rest
        (r.1, act.2 ++ r.2.1, r.2.2)
    else (s, [], next :: rest)

/-- crypto_monitor.maintain_active_slots. When the queue is empty it is
refilled from the freshly parsed catalog (reload_and_rebuild_queue; the
catalog is a parameter, empty on a parse failure). -/
def maintain_active_slots (s : MonState) (fetch : String → ℚ) (catalog : List Slot)
    (now : ℤ) : MonState × List Effect :=
  let q := if s.slot_queue.isEmpty then s.slot_queue ++ build_slot_queue catalog now
    else s.slot_queue
  let r := topUpLoop { s with slot_queue := [] } fetch now q
  ({ r.1 with slot_queue := r.2.2 }, r.2.1)

/-- One iteration of the slot_watcher_thread loop: close the trades of
every expired active slot, drop those slots from the active set, and top
up if any expired. -/
def sweepStep (s : MonState) (fetch : String → ℚ) (catalog : List Slot) (now : ℤ) :
    MonState × List Effect :=
  let expired := s.active_slots.filter (fun sl => decide (now ≥ sl.end_dt))
  let r := expired.foldl (fun (acc : MonState × List Effect) sl =>
    let c := close_slot_trades acc.1 sl now
    (c.1, acc.2 ++ c.2)) (s, [])
  let s₁ := { r.1 with active_slots :=
    r.1.active_slots.filter (fun sl => decide (¬ now ≥ sl.end_dt)) }
  if expired.isEmpty then (s₁, r.2)
  else
    let m := maintain_active_slots s₁ fetch catalog now
    (m.1, r.2 ++ m.2)

/-- Fresh in-memory state at process start (the DB file may carry rows
from earlier runs, so reachability is parametric in the initial DB). -/
def initState (db : TradeDB) : MonState :=
  { prices := [], token_to_label := [], token_to_trade := [],
    active_slots := [], slot_queue := [], last_tick_print := [],
    ws_msg_count := 0, db := db }

/-- The atomic operations that mutate the shared state: an inbound WS
message, one sweep iteration, one top-up call (startup or refill), and a
queue rebuild. -/
inductive Step : MonState → MonState → Prop
  | msg (s : MonState) (now : ℤ) (decoded : Option JVal) :
      Step s (on_message s now decoded).1
  | sweep (s : MonState) (fetch : String → ℚ) (catalog : List Slot) (now : ℤ) :
      Step s (sweepStep s fetch catalog now).1
  | topup (s : MonState) (fetch : String → ℚ) (catalog : List Slot) (now : ℤ) :
      Step s (maintain_active_slots s fetch catalog now).1
  | rebuild (s : MonState) (catalog : List Slot) (now : ℤ) :
      Step s { s with slot_queue := build_slot_queue catalog now }

inductive Reachable : MonState → Prop
  | init (db : TradeDB) : Reachable (initState db)
  | step {s s' : MonState} : Reachable s → Step s s' → Reachable s'

/-- The subscription invariant at one token: the subscription table and the
trade table have the same domain, and every registered trade is open. -/
def InvMapsAt (s : MonState) (t : String) : Prop :=
  (alookup t s.token_to_label).isSome = (alookup t s.token_to_trade).isSome ∧
  ((alookup t s.token_to_trade).map TradeInfo.closed).getD false = false

/-- How one atomic operation may change the subscription maps at a token:
leave it alone, clear it in both maps, or leave it registered in both maps
with an open trade. Each case preserves the subscription invariant. -/
def MapsEvolve (s s' : MonState) : Prop :=
  ∀ t : String,
    (alookup t s'.token_to_label = alookup t s.token_to_label ∧
     alookup t s'.token_to_trade = alookup t s.token_to_trade) ∨
    (alookup t s'.token_to_label = none ∧ alookup t s'.token_to_trade = none) ∨
    ((alookup t s'.token_to_label).isSome = true ∧
     ∃ tr, alookup t s'.token_to_trade = some tr ∧ tr.closed = false)

/- ── Helper predicates and concrete data for the claims ────────────── -/

/-- A best_bid_ask quote-update event as delivered by the WS feed. -/
def quoteItem (t : String) (bid ask : ℚ) : JVal :=
  .jobj [("event_type", .jstr "best_bid_ask"), ("asset_id", .jstr t),
         ("best_bid", .jnum bid), ("best_ask", .jnum ask)]

/-- The side effects of a trade close: the persistence write, the alerts,
and the unsubscription request. -/
def isCloseSideEffect : Effect → Bool
  | .dbCloseCall _ _ _ => true
  | .alertLimitHit _ _ _ => true
  | .alertSlotSummary _ _ => true
  | .unsubscribeOp _ => true
  | _ => false

/-- Whether an effect is the persistence close call for trade id n. -/
def closesId (n : ℕ) : Effect → Bool
  | .dbCloseCall m _ _ => m = n
  | _ => false

/-- A pending DB row used by the concrete witnesses. -/
def mkRow (slot asset tok : String) (entry shares lim : ℚ) : TradeRow :=
  { slot_label := slot, asset := asset, side_chosen := "YES", token_id := tok,
    entry_time := 0, entry_price := entry, yes_price_at_entry := entry,
    no_price_at_entry := 0, shares := shares, limit_sell_price := lim,
    min_price := entry, max_price := entry, num_price_updates := 0,
    max_adverse_pct := 0, max_favorable_pct := 0, exit_price := none,
    exit_time := none, exit_reason := none, fill_latency_sec := none,
    pnl_usd := 0, pnl_pct := 0, outcome := "pending",
    equity_before := STARTING_EQUITY, equity_after := 0 }

def tradeA : TradeInfo :=
  { trade_id := 1, crypto := "BTC", side := "YES", entry_price := 0.6,
    limit_sell := 0.65, shares := 50, slot_label := "S", closed := false }

def tradeB : TradeInfo :=
  { trade_id := 2, crypto := "ETH", side := "YES", entry_price := 0.5,
    limit_sell := 0.55, shares := 60, slot_label := "S", closed := false }

def dbAB : TradeDB :=
  { rows := [(1, mkRow "S" "BTC" "a" 0.6 50 0.65), (2, mkRow "S" "ETH" "b" 0.5 60 0.55)],
    next_id := 3 }

/-- A state with two open trades on tokens "a" and "b" of slot "S". -/
def sAB : MonState :=
  { prices := [], token_to_label := [("a", "BTC YES"), ("b", "ETH YES")],
    token_to_trade := [("a", tradeA), ("b", tradeB)],
    active_slots := [], slot_queue := [], last_tick_print := [],
    ws_msg_count := 0, db := dbAB }

def slotS : Slot :=
  { label := "S", start_dt := 0, end_dt := 3600,
    markets := [("BTC", ("a", "a2")), ("ETH", ("b", "b2")),
                ("SOL", ("c", "c2")), ("XRP", ("d", "d2"))] }

/- ── Theorems ──────────────────────────────────────────────────────
   Association-list lemmas used throughout. ── -/

theorem alookup_aerase {α β : Type} [DecidableEq α] (k k' : α) (l : List (α × β)) :
    alookup k (aerase k' l) = if k' = k then none else alookup k l := by
  induction l with
  | nil => simp [aerase, alookup]
  | cons p rest ih =>
    obtain ⟨a, b⟩ := p
    by_cases hak : a = k'
    · subst hak
      by_cases hk : a = k
      · subst hk; simp [aerase, alookup, ih]
      · simp [aerase, alookup, hk, ih]
    · by_cases hk : a = k
      · subst hk
        have h2 : ¬ k' = a := fun h => hak h.symm
        simp [aerase, alookup, hak, h2, ih]
      · simp [aerase, alookup, hak, hk, ih]

theorem alookup_aupdate {α β : Type} [DecidableEq α] (k k' : α) (v : β) (l : List (α × β)) :
    alookup k (aupdate k' v l) =
      if k' = k ∧ (alookup k' l).isSome then some v else alookup k l := by
  induction l with
  | nil => simp [aupdate, alookup]
  | cons p rest ih =>
    obtain ⟨a, b⟩ := p
    by_cases hak : a = k'
    · subst hak
      by_cases hk : a = k
      · subst hk; simp [aupdate, alookup]
      · simp [aupdate, alookup, hk]
    · by_cases hk : a = k
      · subst hk
        have h2 : ¬ k' = a := fun h => hak h.symm
        simp [aupdate, alookup, hak, h2]
      · simp [aupdate, alookup, hak, hk, ih]

theorem alookup_append {α β : Type} [DecidableEq α] (k : α) (l₁ l₂ : List (α × β)) :
    alookup k (l₁ ++ l₂) = ((alookup k l₁).or (alookup k l₂)) := by
  induction l₁ with
  | nil => simp [alookup]
  | cons p rest ih =>
    obtain ⟨a, b⟩ := p
    by_cases hak : a = k <;> simp [alookup, hak, ih]

theorem alookup_dset {α β : Type} [DecidableEq α] (k k' : α) (v : β) (l : List (α × β)) :
    alookup k (dset k' v l) = if k' = k then some v else alookup k l := by
  unfold dset
  by_cases hp : (alookup k' l).isSome
  · simp [hp, alookup_aupdate]
  · rw [if_neg hp, alookup_append]
    have hnone : alookup k' l = none := by
      cases h : alookup k' l with
      | none => rfl
      | some v' => rw [h] at hp; simp at hp
    by_cases hk : k' = k
    · subst hk
      simp [hnone, alookup]
    · simp [alookup, hk]

theorem alookup_map_self {α β : Type} [DecidableEq α] (g : α → β) (k : α) (l : List α) :
    alookup k (l.map (fun c => (c, g c))) = if k ∈ l then some (g k) else none := by
  induction l with
  | nil => simp [alookup]
  | cons a rest ih =>
    by_cases hak : a = k
    · subst hak
      simp [alookup]
    · have hka : ¬ k = a := fun h => hak h.symm
      simp [alookup, hak, hka, ih]

theorem filter_length_aupdate {α β : Type} [DecidableEq α] (P : β → Bool) (k : α) (v row : β)
    (l : List (α × β)) (hl : alookup k l = some row) (hrow : P row = false) (hv : P v = true) :
    ((aupdate k v l).filter (fun p => P p.2)).length
      = ((l.filter (fun p => P p.2)).length) + 1 := by
  induction l with
  | nil => simp [alookup] at hl
  | cons p rest ih =>
    obtain ⟨a, b⟩ := p
    by_cases hak : a = k
    · subst hak
      simp [alookup] at hl
      subst hl
      simp [aupdate, List.filter_cons, hrow, hv]
    · simp [alookup, hak] at hl
      simp only [aupdate, if_neg hak, List.filter_cons]
      cases hPb : P b <;> simp [hPb, ih hl]

/- ── C4: side selection ────────────────────────────────────────────── -/

/-- C4: for every slot and instrument, side selection picks the side whose
fetched price is greater than or equal to the other side's, with an exact
tie (including both prices 0) going to YES, and the returned entry price
is the chosen side's fetched price. -/
theorem C4_side_selection (slot : Slot) (fetch : String → ℚ) (crypto yes_id no_id : String)
    (hm : alookup crypto slot.markets = some (yes_id, no_id))
    (hc : crypto ∈ CRYPTOS) :
    ∃ sel, alookup crypto (select_winning_sides slot fetch) = some sel ∧
      sel.yes_price = fetch yes_id ∧
      sel.no_price = fetch no_id ∧
      sel.side = (if fetch yes_id ≥ fetch no_id then "YES" else "NO") ∧
      sel.token_id = (if fetch yes_id ≥ fetch no_id then yes_id else no_id) ∧
      sel.entry_price = (if fetch yes_id ≥ fetch no_id then fetch yes_id else fetch no_id) ∧
      fetch yes_id ≤ sel.entry_price ∧ fetch no_id ≤ sel.entry_price := by
  rw [select_winning_sides, alookup_map_self, if_pos hc]
  refine ⟨selOf slot fetch crypto, rfl, ?_⟩
  unfold selOf
  rw [hm]
  by_cases h : fetch yes_id ≥ fetch no_id
  · simp [h]
  · have hlt : fetch yes_id < fetch no_id := lt_of_not_ge h
    simp [h, le_of_lt hlt]

/-- C4 witness: side selection evaluated on a concrete slot and price map. -/
theorem C4_side_selection_witness :
    ∃ sel, alookup "ETH" (select_winning_sides slotS
        (fun t => if t = "b" then (0.3 : ℚ) else if t = "b2" then 0.4 else 0)) = some sel ∧
      sel.yes_price = 0.3 ∧ sel.no_price = 0.4 ∧
      sel.side = (if (0.3 : ℚ) ≥ 0.4 then "YES" else "NO") ∧
      sel.token_id = (if (0.3 : ℚ) ≥ 0.4 then "b" else "b2") ∧
      sel.entry_price = (if (0.3 : ℚ) ≥ 0.4 then (0.3 : ℚ) else 0.4) ∧
      (0.3 : ℚ) ≤ sel.entry_price ∧ (0.4 : ℚ) ≤ sel.entry_price := by
  have h := C4_side_selection slotS
    (fun t => if t = "b" then (0.3 : ℚ) else if t = "b2" then 0.4 else 0)
    "ETH" "b" "b2" (by rfl) (by decide)
  simpa using h

/- ── C7: close_trade on unknown / already-closed ids ───────────────── -/

/-- C7 counterexample: closing trade 1 of dbAB and then calling close_trade
on the same id again does not return None; the second call recomputes and
re-records the exit (the claim says it must return null). -/
theorem C7_counterexample :
    ((close_trade (close_trade dbAB 7 1 0.66 "limit_hit").1 9 1 0.5 "slot_expired").2).isSome
        = true ∧
    ((alookup 1 (close_trade (close_trade dbAB 7 1 0.66 "limit_hit").1 9 1 0.5
        "slot_expired").1.rows).map (fun r => r.exit_reason))
      = some (some "slot_expired") := by
  constructor <;> rfl

/-- C7 amended: close_trade returns None (without raising) exactly when the
trade id is unknown; an already-closed trade id is looked up like any other
row, so the exit is recomputed and re-recorded instead of returning None.
(In the monitor this is unreachable because callers guard on the in-memory
closed flag.) -/
theorem C7_amended_close_none_iff_unknown (db : TradeDB) (now : ℤ) (tid : ℕ)
    (xp : ℚ) (reason : String) :
    (close_trade db now tid xp reason).2 = none ↔ alookup tid db.rows = none := by
  cases h : alookup tid db.rows <;> simp [close_trade, h]

/- ── C8: queue refill ──────────────────────────────────────────────── -/

/-- C8: on a non-empty catalog sorted ascending by start time,
build_slot_queue returns a non-empty queue of at most WINDOW_SIZE slots,
sorted ascending by start time, equal to the first WINDOW_SIZE slots
starting strictly in the future, or to the most recent WINDOW_SIZE slots
of the catalog when none are future. -/
theorem C8_queue_refill (all_slots : List Slot) (now : ℤ)
    (hne : all_slots ≠ [])
    (hsorted : List.Sorted (fun a b : Slot => a.start_dt ≤ b.start_dt) all_slots) :
    build_slot_queue all_slots now ≠ [] ∧
    (build_slot_queue all_slots now).length ≤ WINDOW_SIZE ∧
    List.Sorted (fun a b : Slot => a.start_dt ≤ b.start_dt) (build_slot_queue all_slots now) ∧
    (all_slots.filter (fun sl => decide (now < sl.start_dt)) ≠ [] →
      build_slot_queue all_slots now
        = (all_slots.filter (fun sl => decide (now < sl.start_dt))).take WINDOW_SIZE) ∧
    (all_slots.filter (fun sl => decide (now < sl.start_dt)) = [] →
      build_slot_queue all_slots now
        = (all_slots.drop (all_slots.length - WINDOW_SIZE)).take WINDOW_SIZE) := by
  have hW : WINDOW_SIZE = 5 := rfl
  have hchar : build_slot_queue all_slots now
      = if (all_slots.filter (fun sl => decide (now < sl.start_dt))).isEmpty
        then (all_slots.drop (all_slots.length - WINDOW_SIZE)).take WINDOW_SIZE
        else (all_slots.filter (fun sl => decide (now < sl.start_dt))).take WINDOW_SIZE := by
    unfold build_slot_queue
    by_cases h : (all_slots.filter (fun sl => decide (now < sl.start_dt))).isEmpty <;> simp [h]
  rw [hchar]
  by_cases hf : all_slots.filter (fun sl => decide (now < sl.start_dt)) = []
  · have hfE : (all_slots.filter (fun sl => decide (now < sl.start_dt))).isEmpty = true := by
      rw [hf]; rfl
    rw [hfE, if_pos rfl]
    refine ⟨?_, ?_, ?_, fun hcontra => absurd hf hcontra, fun _ => rfl⟩
    · intro hnil
      rcases List.take_eq_nil_iff.mp hnil with h5 | hdrop
      · omega
      · have hlen : 0 < all_slots.length := List.length_pos.mpr hne
        have := List.drop_eq_nil_iff.mp hdrop
        omega
    · rw [List.length_take]
      exact min_le_left _ _
    · exact List.Pairwise.sublist
        ((List.take_sublist _ _).trans (List.drop_sublist _ _)) hsorted
  · have hfE : (all_slots.filter (fun sl => decide (now < sl.start_dt))).isEmpty = false := by
      cases h : all_slots.filter (fun sl => decide (now < sl.start_dt)) with
      | nil => exact absurd h hf
      | cons a l => rfl
    rw [hfE, if_neg Bool.false_ne_true]
    refine ⟨?_, ?_, ?_, fun _ => rfl, fun hcontra => absurd hcontra hf⟩
    · intro hnil
      rcases List.take_eq_nil_iff.mp hnil with h5 | h
      · omega
      · exact hf h
    · rw [List.length_take]
      exact min_le_left _ _
    · exact List.Pairwise.sublist
        ((List.take_sublist _ _).trans (List.filter_sublist _)) hsorted

/-- C8 witness: the queue refill evaluated on a concrete one-slot catalog
with no future slot (the fallback branch). -/
theorem C8_queue_refill_witness :
    build_slot_queue [slotS] 5000 ≠ [] ∧
    (build_slot_queue [slotS] 5000).length ≤ WINDOW_SIZE ∧
    List.Sorted (fun a b : Slot => a.start_dt ≤ b.start_dt) (build_slot_queue [slotS] 5000) ∧
    ([slotS].filter (fun sl => decide ((5000 : ℤ) < sl.start_dt)) ≠ [] →
      build_slot_queue [slotS] 5000
        = ([slotS].filter (fun sl => decide ((5000 : ℤ) < sl.start_dt))).take WINDOW_SIZE) ∧
    ([slotS].filter (fun sl => decide ((5000 : ℤ) < sl.start_dt)) = [] →
      build_slot_queue [slotS] 5000
        = (([slotS] : List Slot).drop (([slotS] : List Slot).length - WINDOW_SIZE)).take
            WINDOW_SIZE) := by
  exact C8_queue_refill [slotS] 5000 (by decide)
    (List.sorted_singleton _)

/- ── C9: malformed messages ────────────────────────────────────────── -/

/-- C9 (code bug evaluation): a message that decodes to a JSON value other
than an object or array of objects, such as the valid JSON text 42, makes
on_message raise (AttributeError on item.get) instead of being dropped
silently, while a message that fails JSON decoding is indeed dropped
silently with no state mutation. -/
theorem C9_nonobject_message_raises :
    (on_message (initState { rows := [], next_id := 1 }) 0 (some (JVal.jnum 42))).2.2 = true ∧
    (on_message (initState { rows := [], next_id := 1 }) 0 none).2.2 = false ∧
    (on_message (initState { rows := [], next_id := 1 }) 0 none).1
      = initState { rows := [], next_id := 1 } ∧
    (on_message (initState { rows := [], next_id := 1 }) 0 none).2.1 = [] := by
  refine ⟨rfl, rfl, rfl, rfl⟩

/- ── C10: win / loss classification ────────────────────────────────── -/

/-- C10: a successful close records outcome win exactly when the computed
pnl_usd is nonnegative; an exit at the entry price yields pnl 0, outcome
win, and one more row counted among the wins of get_stats. -/
theorem C10_outcome_classification (db : TradeDB) (now : ℤ) (tid : ℕ) (xp : ℚ)
    (reason : String) (row : TradeRow)
    (hrow : alookup tid db.rows = some row)
    (hpending : row.outcome = "pending") :
    ∃ res, (close_trade db now tid xp reason).2 = some res ∧
      res.pnl_usd = (xp - row.entry_price) * row.shares ∧
      (res.outcome = "win" ↔ 0 ≤ res.pnl_usd) ∧
      (xp = row.entry_price →
        res.pnl_usd = 0 ∧ res.outcome = "win" ∧
        (get_stats (close_trade db now tid xp reason).1).wins = (get_stats db).wins + 1) := by
  simp only [close_trade, hrow]
  refine ⟨_, rfl, rfl, ?_, ?_⟩
  · by_cases h : (xp - row.entry_price) * row.shares ≥ 0 <;> simp [h]
  · intro hxp
    have hz : (xp - row.entry_price) * row.shares = 0 := by
      rw [hxp, sub_self, zero_mul]
    refine ⟨hz, by simp [hz], ?_⟩
    simp only [get_stats]
    refine filter_length_aupdate (fun r => decide (r.outcome = "win")) tid _ row db.rows hrow
      ?_ ?_
    · simp [hpending]
    · simp [closedRow, hxp]

/-- C10 witness: closing trade 1 of dbAB at its entry price. -/
theorem C10_outcome_classification_witness :
    ∃ res, (close_trade dbAB 7 1 0.6 "slot_expired").2 = some res ∧
      res.pnl_usd = ((0.6 : ℚ) - (mkRow "S" "BTC" "a" 0.6 50 0.65).entry_price)
          * (mkRow "S" "BTC" "a" 0.6 50 0.65).shares ∧
      (res.outcome = "win" ↔ 0 ≤ res.pnl_usd) ∧
      ((0.6 : ℚ) = (mkRow "S" "BTC" "a" 0.6 50 0.65).entry_price →
        res.pnl_usd = 0 ∧ res.outcome = "win" ∧
        (get_stats (close_trade dbAB 7 1 0.6 "slot_expired").1).wins
          = (get_stats dbAB).wins + 1) := by
  exact C10_outcome_classification dbAB 7 1 0.6 "slot_expired"
    (mkRow "S" "BTC" "a" 0.6 50 0.65) (by rfl) (by rfl)

/- ── C6: the batched-message break skips later limit checks ────────── -/

/-- C6 (code bug evaluation): in a batched message whose first event closes
the trade on token a, the break exits the loop over all items, so the
second event, for token b whose bid 0.7 is at or above its limit 0.55,
never gets its limit-hit evaluation: trade b stays open, unclosed and
subscribed, and no close call for trade id 2 is issued, while trade id 1
is closed. -/
theorem C6_batched_break_skips_limit_check :
    ((0.7 : ℚ) ≥ tradeB.limit_sell ∧ tradeB.closed = false) ∧
    (on_message sAB 10 (some (.jarr [quoteItem "a" 0.7 0.72, quoteItem "b" 0.7 0.72]))).2.1.any
        (closesId 1) = true ∧
    (on_message sAB 10 (some (.jarr [quoteItem "a" 0.7 0.72, quoteItem "b" 0.7 0.72]))).2.1.any
        (closesId 2) = false ∧
    alookup "b" (on_message sAB 10
        (some (.jarr [quoteItem "a" 0.7 0.72, quoteItem "b" 0.7 0.72]))).1.token_to_trade
      = some tradeB ∧
    alookup "b" (on_message sAB 10
        (some (.jarr [quoteItem "a" 0.7 0.72, quoteItem "b" 0.7 0.72]))).1.token_to_label
      = some "ETH YES" := by
  refine ⟨⟨by decide, rfl⟩, rfl, rfl, rfl, rfl⟩

/- ── Structural lemmas: which state components each operation can touch ── -/

theorem itemStep_active_queue (s : MonState) (now : ℤ) (item : JVal) :
    (itemStep s now item).1.active_slots = s.active_slots ∧
    (itemStep s now item).1.slot_queue = s.slot_queue := by
  cases item <;> simp only [itemStep] <;> try exact ⟨rfl, rfl⟩
  repeat' split
  all_goals first | trivial | exact ⟨by trivial, by trivial⟩

theorem runItems_active_queue (now : ℤ) (items : List JVal) (s : MonState) :
    (runItems s now items).1.active_slots = s.active_slots ∧
    (runItems s now items).1.slot_queue = s.slot_queue := by
  induction items generalizing s with
  | nil => exact ⟨rfl, rfl⟩
  | cons item rest ih =>
    obtain ⟨h1, h2⟩ := itemStep_active_queue s now item
    simp only [runItems]
    split
    · obtain ⟨h3, h4⟩ := ih (itemStep s now item).1
      exact ⟨h3.trans h1, h4.trans h2⟩
    · exact ⟨h1, h2⟩
    · exact ⟨h1, h2⟩

theorem on_message_active_queue (s : MonState) (now : ℤ) (d : Option JVal) :
    (on_message s now d).1.active_slots = s.active_slots ∧
    (on_message s now d).1.slot_queue = s.slot_queue := by
  cases d with
  | none => exact ⟨rfl, rfl⟩
  | some v => cases v <;> exact runItems_active_queue _ _ _

theorem closeSweepStep_active_queue (slot : Slot) (pr : List (String × PriceEntry)) (now : ℤ)
    (acc : MonState × List Effect × List String × List CloseResult) (p : String × TradeInfo) :
    (closeSweepStep slot pr now acc p).1.active_slots = acc.1.active_slots ∧
    (closeSweepStep slot pr now acc p).1.slot_queue = acc.1.slot_queue := by
  unfold closeSweepStep
  dsimp only
  repeat' split
  all_goals first | trivial | exact ⟨by trivial, by trivial⟩

theorem closeFold_active_queue (slot : Slot) (pr : List (String × PriceEntry)) (now : ℤ)
    (items : List (String × TradeInfo)) :
    ∀ acc : MonState × List Effect × List String × List CloseResult,
    ((items.foldl (closeSweepStep slot pr now) acc).1.active_slots = acc.1.active_slots) ∧
    ((items.foldl (closeSweepStep slot pr now) acc).1.slot_queue = acc.1.slot_queue) := by
  induction items with
  | nil => exact fun acc => ⟨rfl, rfl⟩
  | cons p rest ih =>
    intro acc
    obtain ⟨h1, h2⟩ := closeSweepStep_active_queue slot pr now acc p
    obtain ⟨h3, h4⟩ := ih (closeSweepStep slot pr now acc p)
    exact ⟨h3.trans h1, h4.trans h2⟩

theorem close_slot_trades_active_queue (s : MonState) (slot : Slot) (now : ℤ) :
    (close_slot_trades s slot now).1.active_slots = s.active_slots ∧
    (close_slot_trades s slot now).1.slot_queue = s.slot_queue := by
  obtain ⟨h1, h2⟩ :=
    closeFold_active_queue slot s.prices now s.token_to_trade (s, [], [], [])
  unfold close_slot_trades
  dsimp only
  constructor <;> split <;> first | exact h1 | exact h2

theorem activateStep_active_queue (slot : Slot) (sels : List (String × Selection)) (now : ℤ)
    (acc : MonState × List Effect × List String) (crypto : String) :
    (activateStep slot sels now acc crypto).1.active_slots = acc.1.active_slots ∧
    (activateStep slot sels now acc crypto).1.slot_queue = acc.1.slot_queue := by
  unfold activateStep
  dsimp only
  repeat' split
  all_goals first | trivial | exact ⟨by trivial, by trivial⟩

theorem activateFold_active_queue (slot : Slot) (sels : List (String × Selection)) (now : ℤ)
    (cryptos : List String) :
    ∀ acc : MonState × List Effect × List String,
    ((cryptos.foldl (activateStep slot sels now) acc).1.active_slots = acc.1.active_slots) ∧
    ((cryptos.foldl (activateStep slot sels now) acc).1.slot_queue = acc.1.slot_queue) := by
  induction cryptos with
  | nil => exact fun acc => ⟨rfl, rfl⟩
  | cons c rest ih =>
    intro acc
    obtain ⟨h1, h2⟩ := activateStep_active_queue slot sels now acc c
    obtain ⟨h3, h4⟩ := ih (activateStep slot sels now acc c)
    exact ⟨h3.trans h1, h4.trans h2⟩

theorem activate_slot_trades_active_queue (s : MonState) (slot : Slot)
    (fetch : String → ℚ) (now : ℤ) :
    (activate_slot_trades s slot fetch now).1.active_slots = s.active_slots ∧
    (activate_slot_trades s slot fetch now).1.slot_queue = s.slot_queue := by
  obtain ⟨h1, h2⟩ := activateFold_active_queue slot (select_winning_sides slot fetch) now
    CRYPTOS (s, [], [])
  unfold activate_slot_trades
  dsimp only
  constructor <;> split <;> first | exact h1 | exact h2

/- ── C2: the active-slot bound ─────────────────────────────────────── -/

theorem topUpLoop_active_le (fetch : String → ℚ) (now : ℤ) (q : List Slot) :
    ∀ s : MonState, s.active_slots.length ≤ MAX_CONCURRENT_SLOTS →
    (topUpLoop s fetch now q).1.active_slots.length ≤ MAX_CONCURRENT_SLOTS := by
  induction q with
  | nil => exact fun s h => h
  | cons next rest ih =>
    intro s h
    simp only [topUpLoop]
    split
    · split
      · exact ih s h
      · rename_i hlt _
        apply ih
        rw [(activate_slot_trades_active_queue _ next fetch now).1]
        simp only [List.length_append, List.length_cons, List.length_nil]
        omega
    · exact h

theorem maintain_active_le (s : MonState) (fetch : String → ℚ) (catalog : List Slot)
    (now : ℤ) (h : s.active_slots.length ≤ MAX_CONCURRENT_SLOTS) :
    (maintain_active_slots s fetch catalog now).1.active_slots.length
      ≤ MAX_CONCURRENT_SLOTS := by
  unfold maintain_active_slots
  exact topUpLoop_active_le fetch now _ _ h

theorem sweepFold_active_queue (now : ℤ) (slots : List Slot) :
    ∀ acc : MonState × List Effect,
    ((slots.foldl (fun (acc : MonState × List Effect) sl =>
        let c := close_slot_trades acc.1 sl now
        (c.1, acc.2 ++ c.2)) acc).1.active_slots = acc.1.active_slots) ∧
    ((slots.foldl (fun (acc : MonState × List Effect) sl =>
        let c := close_slot_trades acc.1 sl now
        (c.1, acc.2 ++ c.2)) acc).1.slot_queue = acc.1.slot_queue) := by
  induction slots with
  | nil => exact fun acc => ⟨rfl, rfl⟩
  | cons sl rest ih =>
    intro acc
    obtain ⟨h1, h2⟩ := close_slot_trades_active_queue acc.1 sl now
    obtain ⟨h3, h4⟩ := ih (let c := close_slot_trades acc.1 sl now; (c.1, acc.2 ++ c.2))
    exact ⟨h3.trans h1, h4.trans h2⟩

theorem sweepStep_active_le (s : MonState) (fetch : String → ℚ) (catalog : List Slot)
    (now : ℤ) (h : s.active_slots.length ≤ MAX_CONCURRENT_SLOTS) :
    (sweepStep s fetch catalog now).1.active_slots.length ≤ MAX_CONCURRENT_SLOTS := by
  unfold sweepStep
  have hfold := sweepFold_active_queue now
    (s.active_slots.filter (fun sl => decide (now ≥ sl.end_dt))) (s, [])
  have hfilter :
      ((((s.active_slots.filter (fun sl => decide (now ≥ sl.end_dt))).foldl
          (fun (acc : MonState × List Effect) sl =>
            let c := close_slot_trades acc.1 sl now
            (c.1, acc.2 ++ c.2)) (s, [])).1.active_slots.filter
            (fun sl => decide (¬ now ≥ sl.end_dt))).length) ≤ MAX_CONCURRENT_SLOTS := by
    calc (((((s.active_slots.filter (fun sl => decide (now ≥ sl.end_dt))).foldl
          (fun (acc : MonState × List Effect) sl =>
            let c := close_slot_trades acc.1 sl now
            (c.1, acc.2 ++ c.2)) (s, [])).1.active_slots.filter
            (fun sl => decide (¬ now ≥ sl.end_dt))).length))
        ≤ (((s.active_slots.filter (fun sl => decide (now ≥ sl.end_dt))).foldl
          (fun (acc : MonState × List Effect) sl =>
            let c := close_slot_trades acc.1 sl now
            (c.1, acc.2 ++ c.2)) (s, [])).1.active_slots.length) :=
            List.length_filter_le _ _
    _ ≤ MAX_CONCURRENT_SLOTS := by rw [hfold.1]; exact h
  dsimp only
  split
  · exact hfilter
  · exact maintain_active_le _ fetch catalog now hfilter

/-- C2: in every reachable state the active-slot set holds at most
MAX_CONCURRENT_SLOTS = 2 slots (the lower bound 0 is definitional for a
list length): slots are added only by the top-up loop, which stops at the
cap, and removed only by the expiry sweep. -/
theorem C2_active_slot_bound (s : MonState) (h : Reachable s) :
    s.active_slots.length ≤ MAX_CONCURRENT_SLOTS := by
  induction h with
  | init db => exact Nat.zero_le _
  | step _ hstep ih =>
    cases hstep with
    | msg now d =>
      rw [(on_message_active_queue _ now d).1]
      exact ih
    | sweep fetch catalog now => exact sweepStep_active_le _ fetch catalog now ih
    | topup fetch catalog now => exact maintain_active_le _ fetch catalog now ih
    | rebuild catalog now => exact ih

/-- C2 witness: the bound evaluated at the initial state. -/
theorem C2_active_slot_bound_witness :
    (initState { rows := [], next_id := 1 }).active_slots.length ≤ MAX_CONCURRENT_SLOTS :=
  C2_active_slot_bound _ (Reachable.init _)

/- ── C3: the subscription maps mirror the open trades ──────────────── -/

theorem mapsEvolve_refl (s : MonState) : MapsEvolve s s :=
  fun _ => Or.inl ⟨rfl, rfl⟩

theorem mapsEvolve_of_eq {s s' : MonState}
    (h1 : s'.token_to_label = s.token_to_label)
    (h2 : s'.token_to_trade = s.token_to_trade) : MapsEvolve s s' :=
  fun _ => Or.inl ⟨by rw [h1], by rw [h2]⟩

theorem mapsEvolve_trans {s₁ s₂ s₃ : MonState}
    (h12 : MapsEvolve s₁ s₂) (h23 : MapsEvolve s₂ s₃) : MapsEvolve s₁ s₃ := by
  intro t
  rcases h23 t with ⟨h1, h2⟩ | h | ⟨h1, tr, h2, h3⟩
  · rcases h12 t with ⟨g1, g2⟩ | g | ⟨g1, tr, g2, g3⟩
    · exact Or.inl ⟨h1.trans g1, h2.trans g2⟩
    · exact Or.inr (Or.inl ⟨h1.trans g.1, h2.trans g.2⟩)
    · exact Or.inr (Or.inr ⟨by rw [h1]; exact g1, tr, by rw [h2]; exact g2, g3⟩)
  · exact Or.inr (Or.inl h)
  · exact Or.inr (Or.inr ⟨h1, tr, h2, h3⟩)

theorem mapsEvolve_inv {s s' : MonState} (h : MapsEvolve s s')
    (hinv : ∀ t, InvMapsAt s t) : ∀ t, InvMapsAt s' t := by
  intro t
  rcases h t with ⟨h1, h2⟩ | ⟨h1, h2⟩ | ⟨h1, tr, h2, h3⟩
  · exact ⟨by rw [h1, h2]; exact (hinv t).1, by rw [h2]; exact (hinv t).2⟩
  · exact ⟨by rw [h1, h2]; rfl, by rw [h2]; rfl⟩
  · exact ⟨by rw [h1, h2]; rfl, by rw [h2]; simpa using h3⟩

/-- A close removes the token from both maps (the in-place closed-flag
write on the trade just before removal is invisible after the erase). -/
theorem mapsEvolve_close (s s' : MonState) (tok : String) (tr' : TradeInfo)
    (h1 : s'.token_to_label = aerase tok s.token_to_label)
    (h2 : s'.token_to_trade = aerase tok (dset tok tr' s.token_to_trade)) :
    MapsEvolve s s' := by
  intro t
  by_cases htok : tok = t
  · subst htok
    refine Or.inr (Or.inl ⟨?_, ?_⟩)
    · rw [h1, alookup_aerase]; simp
    · rw [h2, alookup_aerase]; simp
  · refine Or.inl ⟨?_, ?_⟩
    · rw [h1, alookup_aerase, if_neg htok]
    · rw [h2, alookup_aerase, if_neg htok, alookup_dset, if_neg htok]

/-- Opening a trade registers the token in both maps with an open trade. -/
theorem mapsEvolve_open (s s' : MonState) (tok lbl : String) (tr : TradeInfo)
    (hcl : tr.closed = false)
    (h1 : s'.token_to_label = dset tok lbl s.token_to_label)
    (h2 : s'.token_to_trade = dset tok tr s.token_to_trade) :
    MapsEvolve s s' := by
  intro t
  by_cases htok : tok = t
  · subst htok
    refine Or.inr (Or.inr ⟨?_, tr, ?_, hcl⟩)
    · rw [h1, alookup_dset]; simp
    · rw [h2, alookup_dset]; simp
  · exact Or.inl ⟨by rw [h1, alookup_dset, if_neg htok],
      by rw [h2, alookup_dset, if_neg htok]⟩

theorem itemStep_mapsEvolve (s : MonState) (now : ℤ) (item : JVal) :
    MapsEvolve s (itemStep s now item).1 := by
  cases item <;> simp only [itemStep] <;> try exact mapsEvolve_of_eq rfl rfl
  try dsimp only
  repeat' split
  all_goals try exact mapsEvolve_of_eq rfl rfl
  all_goals exact mapsEvolve_close s _ _ _ rfl rfl

theorem runItems_mapsEvolve (now : ℤ) (items : List JVal) :
    ∀ s, MapsEvolve s (runItems s now items).1 := by
  induction items with
  | nil => exact fun s => mapsEvolve_refl s
  | cons item rest ih =>
    intro s
    simp only [runItems]
    split
    · exact mapsEvolve_trans (itemStep_mapsEvolve s now item) (ih _)
    · exact itemStep_mapsEvolve s now item
    · exact itemStep_mapsEvolve s now item

theorem on_message_mapsEvolve (s : MonState) (now : ℤ) (d : Option JVal) :
    MapsEvolve s (on_message s now d).1 := by
  cases d with
  | none => exact mapsEvolve_refl s
  | some v => cases v <;> exact runItems_mapsEvolve now _ s

theorem alookup_foldl_aerase {α β : Type} [DecidableEq α] (ts : List α)
    (m : List (α × β)) (t : α) :
    alookup t (ts.foldl (fun m tok => aerase tok m) m)
      = if t ∈ ts then none else alookup t m := by
  induction ts generalizing m with
  | nil => simp
  | cons a rest ih =>
    simp only [List.foldl_cons]
    rw [ih]
    by_cases hr : t ∈ rest
    · simp [hr]
    · rw [alookup_aerase]
      by_cases ha : a = t
      · simp [ha, hr, List.mem_cons]
      · have hta : ¬ t = a := fun e => ha e.symm
        simp [ha, hr, hta, List.mem_cons]

theorem closeSweepStep_spec (slot : Slot) (pr : List (String × PriceEntry)) (now : ℤ)
    (acc : MonState × List Effect × List String × List CloseResult) (p : String × TradeInfo) :
    (closeSweepStep slot pr now acc p).1.token_to_label = acc.1.token_to_label ∧
    (∀ t, t ∈ acc.2.2.1 → t ∈ (closeSweepStep slot pr now acc p).2.2.1) ∧
    (∀ t, t ∉ (closeSweepStep slot pr now acc p).2.2.1 →
      alookup t (closeSweepStep slot pr now acc p).1.token_to_trade
        = alookup t acc.1.token_to_trade) := by
  unfold closeSweepStep
  dsimp only
  split
  · exact ⟨rfl, fun t h => h, fun t _ => rfl⟩
  split
  · exact ⟨rfl, fun t h => List.mem_append_left _ h, fun t _ => rfl⟩
  · split
    all_goals refine ⟨rfl, fun t h => List.mem_append_left _ h, fun t h => ?_⟩
    all_goals {
      have hne : ¬ p.1 = t := by
        intro e
        exact h (List.mem_append_right _ (by rw [e]; exact List.mem_singleton_self t))
      rw [alookup_dset, if_neg hne]
    }

theorem closeFold_spec (slot : Slot) (pr : List (String × PriceEntry)) (now : ℤ)
    (items : List (String × TradeInfo)) :
    ∀ acc : MonState × List Effect × List String × List CloseResult,
    ((items.foldl (closeSweepStep slot pr now) acc).1.token_to_label
        = acc.1.token_to_label) ∧
    (∀ t, t ∈ acc.2.2.1 → t ∈ (items.foldl (closeSweepStep slot pr now) acc).2.2.1) ∧
    (∀ t, t ∉ (items.foldl (closeSweepStep slot pr now) acc).2.2.1 →
      alookup t (items.foldl (closeSweepStep slot pr now) acc).1.token_to_trade
        = alookup t acc.1.token_to_trade) := by
  induction items with
  | nil => exact fun acc => ⟨rfl, fun t h => h, fun t _ => rfl⟩
  | cons p rest ih =>
    intro acc
    simp only [List.foldl_cons]
    obtain ⟨s1, s2, s3⟩ := closeSweepStep_spec slot pr now acc p
    obtain ⟨i1, i2, i3⟩ := ih (closeSweepStep slot pr now acc p)
    refine ⟨i1.trans s1, fun t h => i2 t (s2 t h), fun t h => ?_⟩
    have ht2 : t ∉ (closeSweepStep slot pr now acc p).2.2.1 := fun hm => h (i2 t hm)
    exact (i3 t h).trans (s3 t ht2)

/-- close_slot_trades removes a set of tokens (the slot's) from both maps
and leaves every other token untouched. -/
theorem close_slot_trades_maps (s : MonState) (slot : Slot) (now : ℤ) :
    ∃ rem : List String,
      (∀ t, alookup t (close_slot_trades s slot now).1.token_to_label
          = if t ∈ rem then none else alookup t s.token_to_label) ∧
      (∀ t, t ∉ rem → alookup t (close_slot_trades s slot now).1.token_to_trade
          = alookup t s.token_to_trade) ∧
      (∀ t, t ∈ rem → alookup t (close_slot_trades s slot now).1.token_to_trade = none) := by
  obtain ⟨h1, _h2, h3⟩ := closeFold_spec slot s.prices now s.token_to_trade (s, [], [], [])
  refine ⟨(s.token_to_trade.foldl (closeSweepStep slot s.prices now) (s, [], [], [])).2.2.1,
    ?_, ?_, ?_⟩ <;> (unfold close_slot_trades; dsimp only)
  · intro t
    split <;> (rw [alookup_foldl_aerase, h1])
  · intro t hmem
    split <;> (rw [alookup_foldl_aerase, if_neg hmem]; exact h3 t hmem)
  · intro t hmem
    split <;> (rw [alookup_foldl_aerase, if_pos hmem])

theorem close_slot_trades_mapsEvolve (s : MonState) (slot : Slot) (now : ℤ) :
    MapsEvolve s (close_slot_trades s slot now).1 := by
  obtain ⟨rem, hL, hTout, hTin⟩ := close_slot_trades_maps s slot now
  intro t
  by_cases hmem : t ∈ rem
  · exact Or.inr (Or.inl ⟨by rw [hL t, if_pos hmem], hTin t hmem⟩)
  · exact Or.inl ⟨by rw [hL t, if_neg hmem], hTout t hmem⟩

theorem activateStep_mapsEvolve (slot : Slot) (sels : List (String × Selection)) (now : ℤ)
    (acc : MonState × List Effect × List String) (crypto : String) :
    MapsEvolve acc.1 (activateStep slot sels now acc crypto).1 := by
  unfold activateStep
  dsimp only
  split
  · exact mapsEvolve_refl _
  split
  · exact mapsEvolve_refl _
  · exact mapsEvolve_open acc.1 _ _ _ _ rfl rfl rfl

theorem activateFold_mapsEvolve (slot : Slot) (sels : List (String × Selection)) (now : ℤ)
    (cryptos : List String) :
    ∀ acc : MonState × List Effect × List String,
    MapsEvolve acc.1 ((cryptos.foldl (activateStep slot sels now) acc).1) := by
  induction cryptos with
  | nil => exact fun acc => mapsEvolve_refl _
  | cons c rest ih =>
    intro acc
    simp only [List.foldl_cons]
    exact mapsEvolve_trans (activateStep_mapsEvolve slot sels now acc c)
      (ih (activateStep slot sels now acc c))

theorem activate_slot_trades_mapsEvolve (s : MonState) (slot : Slot)
    (fetch : String → ℚ) (now : ℤ) :
    MapsEvolve s (activate_slot_trades s slot fetch now).1 := by
  have h := activateFold_mapsEvolve slot (select_winning_sides slot fetch) now CRYPTOS
    (s, [], [])
  unfold activate_slot_trades
  dsimp only
  split <;> exact h

theorem topUpLoop_mapsEvolve (fetch : String → ℚ) (now : ℤ) (q : List Slot) :
    ∀ s : MonState, MapsEvolve s (topUpLoop s fetch now q).1 := by
  induction q with
  | nil => exact fun s => mapsEvolve_refl s
  | cons next rest ih =>
    intro s
    simp only [topUpLoop]
    split
    · split
      · exact ih s
      · refine mapsEvolve_trans
          (@mapsEvolve_of_eq s { s with active_slots := s.active_slots ++ [next] } rfl rfl)
          (mapsEvolve_trans
            (activate_slot_trades_mapsEvolve
              { s with active_slots := s.active_slots ++ [next] } next fetch now)
            (ih (activate_slot_trades
              { s with active_slots := s.active_slots ++ [next] } next fetch now).1))
    · exact mapsEvolve_refl s

theorem maintain_mapsEvolve (s : MonState) (fetch : String → ℚ) (catalog : List Slot)
    (now : ℤ) : MapsEvolve s (maintain_active_slots s fetch catalog now).1 := by
  unfold maintain_active_slots
  dsimp only
  exact mapsEvolve_trans
    (@mapsEvolve_of_eq s { s with slot_queue := [] } rfl rfl)
    (mapsEvolve_trans
      (topUpLoop_mapsEvolve fetch now
        (if s.slot_queue.isEmpty = true then s.slot_queue ++ build_slot_queue catalog now
         else s.slot_queue)
        { s with slot_queue := [] })
      (mapsEvolve_of_eq rfl rfl))

theorem sweepFold_mapsEvolve (now : ℤ) (slots : List Slot) :
    ∀ acc : MonState × List Effect,
    MapsEvolve acc.1 ((slots.foldl (fun (acc : MonState × List Effect) sl =>
      let c := close_slot_trades acc.1 sl now
      (c.1, acc.2 ++ c.2)) acc).1) := by
  induction slots with
  | nil => exact fun acc => mapsEvolve_refl _
  | cons sl rest ih =>
    intro acc
    simp only [List.foldl_cons]
    exact mapsEvolve_trans (close_slot_trades_mapsEvolve acc.1 sl now)
      (ih (let c := close_slot_trades acc.1 sl now; (c.1, acc.2 ++ c.2)))

theorem sweepStep_mapsEvolve (s : MonState) (fetch : String → ℚ) (catalog : List Slot)
    (now : ℤ) : MapsEvolve s (sweepStep s fetch catalog now).1 := by
  have hfold := sweepFold_mapsEvolve now
    (s.active_slots.filter (fun sl => decide (now ≥ sl.end_dt))) (s, [])
  unfold sweepStep
  dsimp only
  split
  · exact mapsEvolve_trans hfold (mapsEvolve_of_eq rfl rfl)
  · exact mapsEvolve_trans hfold
      (mapsEvolve_trans (mapsEvolve_of_eq rfl rfl) (maintain_mapsEvolve _ fetch catalog now))

/-- C3: in every reachable state (after each complete operation), the
domain of the subscription table token_to_label equals the domain of
token_to_trade, and every registered trade is open (closed = false): the
subscribed identifiers are exactly the token ids of the open trades. -/
theorem C3_subscriptions_match_open_trades (s : MonState) (h : Reachable s) :
    ∀ t : String,
      (alookup t s.token_to_label).isSome = (alookup t s.token_to_trade).isSome ∧
      ((alookup t s.token_to_trade).map TradeInfo.closed).getD false = false := by
  have main : ∀ t, InvMapsAt s t := by
    induction h with
    | init db => exact fun t => ⟨rfl, rfl⟩
    | step _ hstep ih =>
      cases hstep with
      | msg now d => exact mapsEvolve_inv (on_message_mapsEvolve _ now d) ih
      | sweep fetch catalog now =>
        exact mapsEvolve_inv (sweepStep_mapsEvolve _ fetch catalog now) ih
      | topup fetch catalog now =>
        exact mapsEvolve_inv (maintain_mapsEvolve _ fetch catalog now) ih
      | rebuild catalog now => exact mapsEvolve_inv (mapsEvolve_of_eq rfl rfl) ih
  exact main

/- ── List lemmas for the close-path analysis (C1, C5) ──────────────── -/

theorem alookup_split_nodup {α β : Type} [DecidableEq α] {k : α} {v : β} {l : List (α × β)}
    (hnd : (l.map Prod.fst).Nodup) (h : alookup k l = some v) :
    ∃ l₁ l₂, l = l₁ ++ (k, v) :: l₂ ∧ (∀ p ∈ l₁, p.1 ≠ k) ∧ (∀ p ∈ l₂, p.1 ≠ k) := by
  induction l with
  | nil => simp [alookup] at h
  | cons q rest ih =>
    obtain ⟨a, b⟩ := q
    have hnd' : a ∉ rest.map Prod.fst ∧ (rest.map Prod.fst).Nodup := List.nodup_cons.mp hnd
    by_cases hak : a = k
    · subst hak
      simp [alookup] at h
      subst h
      refine ⟨[], rest, rfl, by simp, ?_⟩
      intro p hp he
      exact hnd'.1 (he ▸ List.mem_map_of_mem Prod.fst hp)
    · simp [alookup, hak] at h
      obtain ⟨l₁, l₂, heq, h1, h2⟩ := ih hnd'.2 h
      refine ⟨(a, b) :: l₁, l₂, by rw [heq]; rfl, ?_, h2⟩
      intro p hp
      rcases List.mem_cons.mp hp with rfl | hp'
      · exact hak
      · exact h1 p hp'

theorem mem_key_eq_of_alookup {α β : Type} [DecidableEq α] {l : List (α × β)}
    (hnd : (l.map Prod.fst).Nodup) {k : α} {v : β} (h : alookup k l = some v)
    {p : α × β} (hp : p ∈ l) (hk : p.1 = k) : p = (k, v) := by
  induction l with
  | nil => cases hp
  | cons q rest ih =>
    obtain ⟨a, b⟩ := q
    have hnd' : a ∉ rest.map Prod.fst ∧ (rest.map Prod.fst).Nodup := List.nodup_cons.mp hnd
    rcases List.mem_cons.mp hp with he | hp'
    · rw [he] at hk ⊢
      simp only at hk
      subst hk
      simp [alookup] at h
      simp [h]
    · by_cases hak : a = k
      · subst hak
        exact absurd (hk ▸ List.mem_map_of_mem Prod.fst hp') hnd'.1
      · simp [alookup, hak] at h
        exact ih hnd'.2 h hp'

theorem mem_aerase {α β : Type} [DecidableEq α] {p : α × β} {k : α} {l : List (α × β)}
    (h : p ∈ aerase k l) : p ∈ l ∧ p.1 ≠ k := by
  induction l with
  | nil => simp [aerase] at h
  | cons q rest ih =>
    obtain ⟨a, b⟩ := q
    by_cases hak : a = k
    · rw [aerase, if_pos hak] at h
      obtain ⟨h1, h2⟩ := ih h
      exact ⟨List.mem_cons_of_mem _ h1, h2⟩
    · rw [aerase, if_neg hak] at h
      rcases List.mem_cons.mp h with rfl | h'
      · exact ⟨List.mem_cons_self _ _, hak⟩
      · obtain ⟨h1, h2⟩ := ih h'
        exact ⟨List.mem_cons_of_mem _ h1, h2⟩

theorem mem_aupdate {α β : Type} [DecidableEq α] {p : α × β} {k : α} {v : β}
    {l : List (α × β)} (h : p ∈ aupdate k v l) : p = (k, v) ∨ p ∈ l := by
  induction l with
  | nil => simp [aupdate] at h
  | cons q rest ih =>
    obtain ⟨a, b⟩ := q
    by_cases hak : a = k
    · subst hak
      rw [aupdate, if_pos rfl] at h
      rcases List.mem_cons.mp h with rfl | h'
      · exact Or.inl rfl
      · exact Or.inr (List.mem_cons_of_mem _ h')
    · rw [aupdate, if_neg hak] at h
      rcases List.mem_cons.mp h with rfl | h'
      · exact Or.inr (List.mem_cons_self _ _)
      · rcases ih h' with h'' | h''
        · exact Or.inl h''
        · exact Or.inr (List.mem_cons_of_mem _ h'')

theorem mem_dset {α β : Type} [DecidableEq α] {p : α × β} {k : α} {v : β}
    {l : List (α × β)} (h : p ∈ dset k v l) : p = (k, v) ∨ p ∈ l := by
  unfold dset at h
  by_cases hp : (alookup k l).isSome
  · rw [if_pos hp] at h
    exact mem_aupdate h
  · rw [if_neg hp] at h
    rcases List.mem_append.mp h with h' | h'
    · exact Or.inr h'
    · exact Or.inl (by simpa using h')

/-- What one iteration of the close loop can do to the effect list, the
removal list and a DB row: effects grow only by the close call of an open
matching trade, the removal list only by this iteration's token, and a row
whose id no open matching trade carries is untouched. -/
theorem closeSweepStep_effects (slot : Slot) (pr : List (String × PriceEntry)) (now : ℤ)
    (acc : MonState × List Effect × List String × List CloseResult) (p : String × TradeInfo) :
    (∀ e ∈ acc.2.1, e ∈ (closeSweepStep slot pr now acc p).2.1) ∧
    (∀ e ∈ (closeSweepStep slot pr now acc p).2.1, e ∈ acc.2.1 ∨
      (p.2.slot_label = slot.label ∧ p.2.closed = false ∧
       e = Effect.dbCloseCall p.2.trade_id
            (((alookup p.1 pr).map PriceEntry.bid).getD p.2.entry_price) "slot_expired")) ∧
    (∀ tok ∈ (closeSweepStep slot pr now acc p).2.2.1, tok ∈ acc.2.2.1 ∨ tok = p.1) ∧
    (∀ n : ℕ, (p.2.slot_label = slot.label → p.2.closed = false → p.2.trade_id ≠ n) →
      alookup n (closeSweepStep slot pr now acc p).1.db.rows = alookup n acc.1.db.rows) := by
  unfold closeSweepStep
  dsimp only
  split
  · exact ⟨fun e he => he, fun e he => Or.inl he, fun tok h => Or.inl h, fun n _ => rfl⟩
  rename_i hmatch
  have hslot : p.2.slot_label = slot.label := not_not.mp hmatch
  split
  · rename_i hcl
    refine ⟨fun e he => he, fun e he => Or.inl he, ?_, fun n _ => rfl⟩
    intro tok h
    rcases List.mem_append.mp h with h' | h'
    · exact Or.inl h'
    · exact Or.inr (by simpa using h')
  · rename_i hcl
    have hopen : p.2.closed = false := by
      cases hc : p.2.closed
      · rfl
      · exact absurd hc hcl
    cases hrow : alookup p.2.trade_id acc.1.db.rows with
    | none =>
      simp only [close_trade, hrow]
      refine ⟨fun e he => List.mem_append_left _ he, ?_, ?_, fun n _ => by trivial⟩
      · intro e he
        rcases List.mem_append.mp he with h' | h'
        · exact Or.inl h'
        · exact Or.inr ⟨hslot, hopen, by simpa using h'⟩
      · intro tok h
        rcases List.mem_append.mp h with h' | h'
        · exact Or.inl h'
        · exact Or.inr (by simpa using h')
    | some row =>
      simp only [close_trade, hrow]
      refine ⟨fun e he => List.mem_append_left _ he, ?_, ?_, ?_⟩
      · intro e he
        rcases List.mem_append.mp he with h' | h'
        · exact Or.inl h'
        · exact Or.inr ⟨hslot, hopen, by simpa using h'⟩
      · intro tok h
        rcases List.mem_append.mp h with h' | h'
        · exact Or.inl h'
        · exact Or.inr (by simpa using h')
      · intro n hn
        have hne : ¬ p.2.trade_id = n := hn hslot hopen
        exact (alookup_aupdate n p.2.trade_id _ acc.1.db.rows).trans
          (by rw [if_neg (fun hc => hne hc.1)])

theorem closeFold_effects (slot : Slot) (pr : List (String × PriceEntry)) (now : ℤ)
    (items : List (String × TradeInfo)) :
    ∀ acc : MonState × List Effect × List String × List CloseResult,
    (∀ e ∈ acc.2.1, e ∈ (items.foldl (closeSweepStep slot pr now) acc).2.1) ∧
    (∀ e ∈ (items.foldl (closeSweepStep slot pr now) acc).2.1, e ∈ acc.2.1 ∨
      ∃ p, p ∈ items ∧ p.2.slot_label = slot.label ∧ p.2.closed = false ∧
        e = Effect.dbCloseCall p.2.trade_id
              (((alookup p.1 pr).map PriceEntry.bid).getD p.2.entry_price) "slot_expired") ∧
    (∀ tok ∈ (items.foldl (closeSweepStep slot pr now) acc).2.2.1,
      tok ∈ acc.2.2.1 ∨ ∃ p, p ∈ items ∧ p.1 = tok) ∧
    (∀ n : ℕ, (∀ p ∈ items, p.2.slot_label = slot.label → p.2.closed = false →
        p.2.trade_id ≠ n) →
      alookup n (items.foldl (closeSweepStep slot pr now) acc).1.db.rows
        = alookup n acc.1.db.rows) := by
  induction items with
  | nil =>
    exact fun acc => ⟨fun e he => he, fun e he => Or.inl he, fun tok h => Or.inl h,
      fun n _ => rfl⟩
  | cons p rest ih =>
    intro acc
    simp only [List.foldl_cons]
    obtain ⟨s1, s2, s3, s4⟩ := closeSweepStep_effects slot pr now acc p
    obtain ⟨i1, i2, i3, i4⟩ := ih (closeSweepStep slot pr now acc p)
    refine ⟨fun e he => i1 e (s1 e he), ?_, ?_, ?_⟩
    · intro e he
      rcases i2 e he with h' | ⟨q, hq, hq1, hq2, hq3⟩
      · rcases s2 e h' with h'' | ⟨h1, h2, h3⟩
        · exact Or.inl h''
        · exact Or.inr ⟨p, List.mem_cons_self _ _, h1, h2, h3⟩
      · exact Or.inr ⟨q, List.mem_cons_of_mem _ hq, hq1, hq2, hq3⟩
    · intro tok h
      rcases i3 tok h with h' | ⟨q, hq, hq1⟩
      · rcases s3 tok h' with h'' | h''
        · exact Or.inl h''
        · exact Or.inr ⟨p, List.mem_cons_self _ _, h''.symm⟩
      · exact Or.inr ⟨q, List.mem_cons_of_mem _ hq, hq1⟩
    · intro n hn
      have h4 := i4 n (fun q hq => hn q (List.mem_cons_of_mem _ hq))
      exact h4.trans (s4 n (hn p (List.mem_cons_self _ _)))

/-- Every effect of close_slot_trades is a close call for an open trade of
the slot, the one slot summary, or the one unsubscribe of the slot's
tokens; and a DB row whose id no open matching trade carries is untouched. -/
theorem close_slot_trades_effects (s : MonState) (slot : Slot) (now : ℤ) :
    (∀ e ∈ (close_slot_trades s slot now).2,
      (∃ p, p ∈ s.token_to_trade ∧ p.2.slot_label = slot.label ∧ p.2.closed = false ∧
        e = Effect.dbCloseCall p.2.trade_id
              (((alookup p.1 s.prices).map PriceEntry.bid).getD p.2.entry_price)
              "slot_expired") ∨
      (∃ res, e = Effect.alertSlotSummary slot.label res) ∨
      (∃ ls, e = Effect.unsubscribeOp ls ∧
        ∀ tok ∈ ls, ∃ p, p ∈ s.token_to_trade ∧ p.1 = tok)) ∧
    (∀ n : ℕ, (∀ p ∈ s.token_to_trade, p.2.slot_label = slot.label → p.2.closed = false →
        p.2.trade_id ≠ n) →
      alookup n (close_slot_trades s slot now).1.db.rows = alookup n s.db.rows) := by
  obtain ⟨f1, f2, f3, f4⟩ :=
    closeFold_effects slot s.prices now s.token_to_trade (s, [], [], [])
  have hfold2 : ∀ e ∈ (s.token_to_trade.foldl (closeSweepStep slot s.prices now)
      (s, [], [], [])).2.1,
      ∃ p, p ∈ s.token_to_trade ∧ p.2.slot_label = slot.label ∧ p.2.closed = false ∧
        e = Effect.dbCloseCall p.2.trade_id
              (((alookup p.1 s.prices).map PriceEntry.bid).getD p.2.entry_price)
              "slot_expired" := by
    intro e he
    rcases f2 e he with h' | h'
    · cases h'
    · exact h'
  have hfold3 : ∀ tok ∈ (s.token_to_trade.foldl (closeSweepStep slot s.prices now)
      (s, [], [], [])).2.2.1, ∃ p, p ∈ s.token_to_trade ∧ p.1 = tok := by
    intro tok h
    rcases f3 tok h with h' | h'
    · cases h'
    · exact h'
  constructor
  · intro e he
    unfold close_slot_trades at he
    dsimp only at he
    split at he
    · split at he
      · exact Or.inl (hfold2 e he)
      · rcases List.mem_append.mp he with h' | h'
        · exact Or.inl (hfold2 e h')
        · exact Or.inr (Or.inl ⟨_, by simpa using h'⟩)
    · rcases List.mem_append.mp he with h' | h'
      · split at h'
        · exact Or.inl (hfold2 e h')
        · rcases List.mem_append.mp h' with h'' | h''
          · exact Or.inl (hfold2 e h'')
          · exact Or.inr (Or.inl ⟨_, by simpa using h''⟩)
      · refine Or.inr (Or.inr ⟨_, by simpa using h', hfold3⟩)
  · intro n hn
    unfold close_slot_trades
    dsimp only
    split <;> exact f4 n hn

/-- One iteration of the close loop on the target (token, trade): it emits
the close call at the last-bid (or entry) exit price, writes the closed row
into the DB, and schedules the token for removal. -/
theorem closeSweepStep_closes (slot : Slot) (pr : List (String × PriceEntry)) (now : ℤ)
    (acc : MonState × List Effect × List String × List CloseResult)
    (t : String) (tr : TradeInfo) (row : TradeRow)
    (hslot : tr.slot_label = slot.label) (hopen : tr.closed = false)
    (hrow : alookup tr.trade_id acc.1.db.rows = some row) :
    Effect.dbCloseCall tr.trade_id (((alookup t pr).map PriceEntry.bid).getD tr.entry_price)
        "slot_expired" ∈ (closeSweepStep slot pr now acc (t, tr)).2.1 ∧
    alookup tr.trade_id (closeSweepStep slot pr now acc (t, tr)).1.db.rows
      = some (closedRow row now
          (((alookup t pr).map PriceEntry.bid).getD tr.entry_price) "slot_expired") ∧
    t ∈ (closeSweepStep slot pr now acc (t, tr)).2.2.1 := by
  unfold closeSweepStep
  dsimp only
  rw [if_neg (not_not_intro hslot), if_neg (by simp [hopen])]
  simp only [close_trade, hrow]
  refine ⟨List.mem_append_right _ (List.mem_singleton_self _), ?_,
    List.mem_append_right _ (List.mem_singleton_self _)⟩
  rw [alookup_aupdate]
  simp [hrow]

/-- close_slot_trades on a slot holding the open trade tr at token t (whose
id is unique among the registered trades): the close call at the last-bid
(or entry) price is emitted, the DB row of tr is the closed row, and t is
deregistered from both maps. -/
theorem close_slot_trades_closes (s : MonState) (slot : Slot) (now : ℤ)
    (t : String) (tr : TradeInfo) (row : TradeRow)
    (hnd : (s.token_to_trade.map Prod.fst).Nodup)
    (ht : alookup t s.token_to_trade = some tr)
    (hslot : tr.slot_label = slot.label)
    (hopen : tr.closed = false)
    (hrow : alookup tr.trade_id s.db.rows = some row)
    (huniq : ∀ p ∈ s.token_to_trade, p.1 ≠ t → p.2.trade_id ≠ tr.trade_id) :
    Effect.dbCloseCall tr.trade_id
        (((alookup t s.prices).map PriceEntry.bid).getD tr.entry_price) "slot_expired"
      ∈ (close_slot_trades s slot now).2 ∧
    alookup tr.trade_id (close_slot_trades s slot now).1.db.rows
      = some (closedRow row now
          (((alookup t s.prices).map PriceEntry.bid).getD tr.entry_price) "slot_expired") ∧
    alookup t (close_slot_trades s slot now).1.token_to_label = none ∧
    alookup t (close_slot_trades s slot now).1.token_to_trade = none := by
  obtain ⟨l₁, l₂, heq, hk1, hk2⟩ := alookup_split_nodup hnd ht
  have hmem1 : ∀ p ∈ l₁, p ∈ s.token_to_trade := by
    intro p hp
    rw [heq]
    exact List.mem_append_left _ hp
  have hmem2 : ∀ p ∈ l₂, p ∈ s.token_to_trade := by
    intro p hp
    rw [heq]
    exact List.mem_append_right _ (List.mem_cons_of_mem _ hp)
  -- phase 1: the entries before (t, tr) do not touch tr's DB row
  obtain ⟨_, _, _, g4⟩ := closeFold_effects slot s.prices now l₁ (s, [], [], [])
  have hrow1 : alookup tr.trade_id
      (l₁.foldl (closeSweepStep slot s.prices now) (s, [], [], [])).1.db.rows = some row := by
    rw [g4 tr.trade_id (fun p hp _ _ => huniq p (hmem1 p hp) (hk1 p hp))]
    exact hrow
  -- phase 2: the iteration on (t, tr) performs the close
  obtain ⟨c1, c2, c3⟩ := closeSweepStep_closes slot s.prices now
    (l₁.foldl (closeSweepStep slot s.prices now) (s, [], [], [])) t tr row hslot hopen hrow1
  -- phase 3: the entries after (t, tr) preserve all of it
  obtain ⟨e1, _, _, e4⟩ := closeFold_effects slot s.prices now l₂
    (closeSweepStep slot s.prices now
      (l₁.foldl (closeSweepStep slot s.prices now) (s, [], [], [])) (t, tr))
  obtain ⟨_, p2, _⟩ := closeFold_spec slot s.prices now l₂
    (closeSweepStep slot s.prices now
      (l₁.foldl (closeSweepStep slot s.prices now) (s, [], [], [])) (t, tr))
  have hfoldeq : s.token_to_trade.foldl (closeSweepStep slot s.prices now) (s, [], [], [])
      = l₂.foldl (closeSweepStep slot s.prices now)
          (closeSweepStep slot s.prices now
            (l₁.foldl (closeSweepStep slot s.prices now) (s, [], [], [])) (t, tr)) := by
    conv_lhs => rw [heq]
    rw [List.foldl_append, List.foldl_cons]
  have heff : Effect.dbCloseCall tr.trade_id
      (((alookup t s.prices).map PriceEntry.bid).getD tr.entry_price) "slot_expired"
      ∈ (s.token_to_trade.foldl (closeSweepStep slot s.prices now) (s, [], [], [])).2.1 := by
    rw [hfoldeq]
    exact e1 _ c1
  have hdb : alookup tr.trade_id
      (s.token_to_trade.foldl (closeSweepStep slot s.prices now) (s, [], [], [])).1.db.rows
      = some (closedRow row now
          (((alookup t s.prices).map PriceEntry.bid).getD tr.entry_price) "slot_expired") := by
    rw [hfoldeq, e4 tr.trade_id (fun p hp _ _ => huniq p (hmem2 p hp) (hk2 p hp))]
    exact c2
  have hrem : t ∈ (s.token_to_trade.foldl (closeSweepStep slot s.prices now)
      (s, [], [], [])).2.2.1 := by
    rw [hfoldeq]
    exact p2 t c3
  refine ⟨?_, ?_, ?_, ?_⟩
  · unfold close_slot_trades
    dsimp only
    split
    · split
      · exact heff
      · exact List.mem_append_left _ heff
    · split
      · exact List.mem_append_left _ heff
      · exact List.mem_append_left _ (List.mem_append_left _ heff)
  · unfold close_slot_trades
    dsimp only
    split <;> exact hdb
  · unfold close_slot_trades
    dsimp only
    split <;> (rw [alookup_foldl_aerase, if_pos hrem])
  · unfold close_slot_trades
    dsimp only
    split <;> (rw [alookup_foldl_aerase, if_pos hrem])

/-- A quote event for a token absent from the subscription table is ignored
(continue before any state or effect beyond the message counter). -/
theorem on_message_quote_untracked (s : MonState) (now : ℤ) (t : String) (bid ask : ℚ)
    (hlbl : alookup t s.token_to_label = none) :
    on_message s now (some (quoteItem t bid ask))
      = ({ s with ws_msg_count := s.ws_msg_count + 1 }, [], false) := by
  simp [on_message, runItems, itemStep, quoteItem, jget, alookup, isBestBidAsk, tokenKey,
    floatOf, hlbl]

/-- The tick-path guard: a quote event for a token whose registered trade is
already flagged closed performs none of the close side effects and leaves
both subscription maps unchanged. -/
theorem on_message_quote_closed_guard (s : MonState) (now : ℤ) (t lbl : String)
    (bid ask : ℚ) (tr : TradeInfo)
    (hlbl : alookup t s.token_to_label = some lbl)
    (ht : alookup t s.token_to_trade = some tr)
    (hcl : tr.closed = true) :
    (on_message s now (some (quoteItem t bid ask))).2.1.all
        (fun e => !isCloseSideEffect e) = true ∧
    (on_message s now (some (quoteItem t bid ask))).1.token_to_label = s.token_to_label ∧
    (on_message s now (some (quoteItem t bid ask))).1.token_to_trade = s.token_to_trade := by
  simp [on_message, runItems, itemStep, quoteItem, jget, alookup, isBestBidAsk, tokenKey,
    floatOf, hlbl]
  by_cases hthr : 5 ≤ now - (alookup t s.last_tick_print).getD 0 <;>
    simp [hthr, ht, hcl, isCloseSideEffect]

/-- The tick-path close: a quote at or above the limit on an open trade
emits the close call and erases the token from both maps. -/
theorem on_message_quote_closes (s : MonState) (now : ℤ) (t lbl : String)
    (bid ask : ℚ) (tr : TradeInfo)
    (hlbl : alookup t s.token_to_label = some lbl)
    (ht : alookup t s.token_to_trade = some tr)
    (hopen : tr.closed = false) (hbid : bid ≥ tr.limit_sell) :
    Effect.dbCloseCall tr.trade_id bid "limit_hit"
      ∈ (on_message s now (some (quoteItem t bid ask))).2.1 ∧
    (on_message s now (some (quoteItem t bid ask))).1.token_to_label
      = aerase t s.token_to_label ∧
    (on_message s now (some (quoteItem t bid ask))).1.token_to_trade
      = aerase t (dset t { tr with closed := true } s.token_to_trade) := by
  simp [on_message, runItems, itemStep, quoteItem, jget, alookup, isBestBidAsk, tokenKey,
    floatOf, hlbl]
  by_cases hthr : 5 ≤ now - (alookup t s.last_tick_print).getD 0 <;>
    simp [hthr, ht, hopen, hbid] <;> split <;> simp

/-- The iteration on a token of the expired slot always schedules it for
removal, whether or not the trade is already closed. -/
theorem closeSweepStep_remove (slot : Slot) (pr : List (String × PriceEntry)) (now : ℤ)
    (acc : MonState × List Effect × List String × List CloseResult)
    (t : String) (tr : TradeInfo) (hslot : tr.slot_label = slot.label) :
    t ∈ (closeSweepStep slot pr now acc (t, tr)).2.2.1 := by
  unfold closeSweepStep
  dsimp only
  rw [if_neg (not_not_intro hslot)]
  split
  · exact List.mem_append_right _ (List.mem_singleton_self _)
  · split <;> exact List.mem_append_right _ (List.mem_singleton_self _)

/-- close_slot_trades deregisters the token of every trade of the slot. -/
theorem close_slot_trades_removes (s : MonState) (slot : Slot) (now : ℤ)
    (t : String) (tr : TradeInfo)
    (hnd : (s.token_to_trade.map Prod.fst).Nodup)
    (ht : alookup t s.token_to_trade = some tr)
    (hslot : tr.slot_label = slot.label) :
    alookup t (close_slot_trades s slot now).1.token_to_label = none ∧
    alookup t (close_slot_trades s slot now).1.token_to_trade = none := by
  obtain ⟨l₁, l₂, heq, hk1, hk2⟩ := alookup_split_nodup hnd ht
  obtain ⟨_, p2, _⟩ := closeFold_spec slot s.prices now l₂
    (closeSweepStep slot s.prices now
      (l₁.foldl (closeSweepStep slot s.prices now) (s, [], [], [])) (t, tr))
  have hrem : t ∈ (s.token_to_trade.foldl (closeSweepStep slot s.prices now)
      (s, [], [], [])).2.2.1 := by
    conv_lhs => rw [heq]
    rw [List.foldl_append, List.foldl_cons]
    exact p2 t (closeSweepStep_remove slot s.prices now _ t tr hslot)
  constructor <;> (unfold close_slot_trades; dsimp only) <;>
    (split <;> rw [alookup_foldl_aerase, if_pos hrem])

/-- The sweep guard, effect side: when no open trade of the slot carries the
id n, close_slot_trades emits no close call for n and leaves row n alone. -/
theorem close_slot_trades_no_close_for (s : MonState) (slot : Slot) (now : ℤ) (n : ℕ)
    (hp : ∀ p ∈ s.token_to_trade, p.2.slot_label = slot.label → p.2.closed = false →
      p.2.trade_id ≠ n) :
    (close_slot_trades s slot now).2.all (fun e => !closesId n e) = true ∧
    alookup n (close_slot_trades s slot now).1.db.rows = alookup n s.db.rows := by
  obtain ⟨he, hdb⟩ := close_slot_trades_effects s slot now
  refine ⟨List.all_eq_true.mpr ?_, hdb n hp⟩
  intro e hmem
  rcases he e hmem with ⟨p, hpmem, h1, h2, h3⟩ | ⟨res, h3⟩ | ⟨ls, h3, _⟩
  · have := hp p hpmem h1 h2
    simp [h3, closesId, this]
  · simp [h3, closesId]
  · simp [h3, closesId]

/-- close_slot_trades never asks to unsubscribe a token that is not in the
trade table. -/
theorem close_slot_trades_unsub_only_registered (s : MonState) (slot : Slot) (now : ℤ)
    (tskip : String) (hts : ∀ p ∈ s.token_to_trade, p.1 ≠ tskip) :
    (close_slot_trades s slot now).2.all
      (fun e => match e with
        | Effect.unsubscribeOp ls => decide (tskip ∉ ls)
        | _ => true) = true := by
  obtain ⟨he, _⟩ := close_slot_trades_effects s slot now
  refine List.all_eq_true.mpr ?_
  intro e hmem
  rcases he e hmem with ⟨p, _, _, _, h3⟩ | ⟨res, h3⟩ | ⟨ls, h3, hls⟩
  · simp [h3]
  · simp [h3]
  · subst h3
    simp only [decide_eq_true_eq]
    intro hmem'
    obtain ⟨p, hpmem, hp1⟩ := hls tskip hmem'
    exact hts p hpmem hp1

/- ── C1: the terminal close happens at most once ───────────────────── -/

/-- C1: a Trade closes at most once, guarded by check-and-set on its closed
flag. (a) On the tick path, a quote for a trade already flagged closed
performs none of the close side effects (no close write, no alert, no
unsubscribe) and changes neither map. (b) On the expiry sweep, a trade
already flagged closed is skipped: no close write for its id, its DB row
untouched. (c) A limit-hit close emits its close call and deregisters the
token; afterwards a further tick for the token is a no-op with no effects
and no state change beyond the message counter, and a further sweep issues
no close call for the trade, leaves its row alone, and does not ask to
unsubscribe the token again. (d) An expiry close likewise deregisters the
token, after which a further tick for it is a no-op. -/
theorem C1_close_at_most_once (s : MonState) (slot : Slot) (now now' : ℤ)
    (t lbl : String) (tr : TradeInfo) (bid ask bid' ask' : ℚ)
    (hlbl : alookup t s.token_to_label = some lbl)
    (ht : alookup t s.token_to_trade = some tr)
    (hnd : (s.token_to_trade.map Prod.fst).Nodup)
    (huniq : ∀ p ∈ s.token_to_trade, p.1 ≠ t → p.2.trade_id ≠ tr.trade_id) :
    (tr.closed = true →
      (on_message s now (some (quoteItem t bid ask))).2.1.all
        (fun e => !isCloseSideEffect e) = true ∧
      (on_message s now (some (quoteItem t bid ask))).1.token_to_label
        = s.token_to_label ∧
      (on_message s now (some (quoteItem t bid ask))).1.token_to_trade
        = s.token_to_trade) ∧
    (tr.closed = true →
      (close_slot_trades s slot now).2.all (fun e => !closesId tr.trade_id e) = true ∧
      alookup tr.trade_id (close_slot_trades s slot now).1.db.rows
        = alookup tr.trade_id s.db.rows) ∧
    (tr.closed = false → bid ≥ tr.limit_sell →
      Effect.dbCloseCall tr.trade_id bid "limit_hit"
        ∈ (on_message s now (some (quoteItem t bid ask))).2.1 ∧
      alookup t (on_message s now (some (quoteItem t bid ask))).1.token_to_label = none ∧
      alookup t (on_message s now (some (quoteItem t bid ask))).1.token_to_trade = none ∧
      (on_message (on_message s now (some (quoteItem t bid ask))).1 now'
        (some (quoteItem t bid' ask'))).2.1 = [] ∧
      (on_message (on_message s now (some (quoteItem t bid ask))).1 now'
        (some (quoteItem t bid' ask'))).1
        = { (on_message s now (some (quoteItem t bid ask))).1 with
            ws_msg_count :=
              (on_message s now (some (quoteItem t bid ask))).1.ws_msg_count + 1 } ∧
      (close_slot_trades (on_message s now (some (quoteItem t bid ask))).1 slot now').2.all
        (fun e => !closesId tr.trade_id e) = true ∧
      alookup tr.trade_id
        (close_slot_trades (on_message s now (some (quoteItem t bid ask))).1 slot
          now').1.db.rows
        = alookup tr.trade_id (on_message s now (some (quoteItem t bid ask))).1.db.rows ∧
      (close_slot_trades (on_message s now (some (quoteItem t bid ask))).1 slot now').2.all
        (fun e => match e with
          | Effect.unsubscribeOp ls => decide (t ∉ ls)
          | _ => true) = true) ∧
    (tr.closed = false → tr.slot_label = slot.label →
      alookup t (close_slot_trades s slot now).1.token_to_label = none ∧
      alookup t (close_slot_trades s slot now).1.token_to_trade = none ∧
      (on_message (close_slot_trades s slot now).1 now'
        (some (quoteItem t bid' ask'))).2.1 = [] ∧
      (on_message (close_slot_trades s slot now).1 now' (some (quoteItem t bid' ask'))).1
        = { (close_slot_trades s slot now).1 with
            ws_msg_count := (close_slot_trades s slot now).1.ws_msg_count + 1 }) := by
  refine ⟨?_, ?_, ?_, ?_⟩
  · intro hcl
    exact on_message_quote_closed_guard s now t lbl bid ask tr hlbl ht hcl
  · intro hcl
    apply close_slot_trades_no_close_for
    intro p hpmem h1 h2
    by_cases hpt : p.1 = t
    · have hptr := mem_key_eq_of_alookup hnd ht hpmem hpt
      rw [hptr] at h2
      simp [hcl] at h2
    · exact huniq p hpmem hpt
  · intro hopen hbid
    obtain ⟨c1, cL, cT⟩ := on_message_quote_closes s now t lbl bid ask tr hlbl ht hopen hbid
    have hLnone : alookup t (on_message s now
        (some (quoteItem t bid ask))).1.token_to_label = none := by
      rw [cL, alookup_aerase]
      simp
    have hTnone : alookup t (on_message s now
        (some (quoteItem t bid ask))).1.token_to_trade = none := by
      rw [cT, alookup_aerase]
      simp
    have huntracked := on_message_quote_untracked
      (on_message s now (some (quoteItem t bid ask))).1 now' t bid' ask' hLnone
    have hmem₁ : ∀ p ∈ (on_message s now
        (some (quoteItem t bid ask))).1.token_to_trade,
        p ∈ s.token_to_trade ∧ p.1 ≠ t := by
      intro p hp
      rw [cT] at hp
      obtain ⟨hp', hne⟩ := mem_aerase hp
      rcases mem_dset hp' with he | hm
      · exact absurd (by rw [he]) hne
      · exact ⟨hm, hne⟩
    obtain ⟨hall, hdb⟩ := close_slot_trades_no_close_for
      (on_message s now (some (quoteItem t bid ask))).1 slot now' tr.trade_id
      (fun p hp _ _ => huniq p (hmem₁ p hp).1 (hmem₁ p hp).2)
    have hunsub := close_slot_trades_unsub_only_registered
      (on_message s now (some (quoteItem t bid ask))).1 slot now' t
      (fun p hp => (hmem₁ p hp).2)
    exact ⟨c1, hLnone, hTnone, by rw [huntracked], by rw [huntracked], hall, hdb, hunsub⟩
  · intro hopen hslot
    obtain ⟨dL, dT⟩ := close_slot_trades_removes s slot now t tr hnd ht hslot
    have hunt := on_message_quote_untracked (close_slot_trades s slot now).1 now' t
      bid' ask' dL
    exact ⟨dL, dT, by rw [hunt], by rw [hunt]⟩

/-- C1 witness: part (c) evaluated on the concrete two-trade state sAB,
closing token a at bid 0.7 against limit 0.65 and then re-attempting both
close paths. -/
theorem C1_close_at_most_once_witness :
    Effect.dbCloseCall tradeA.trade_id 0.7 "limit_hit"
      ∈ (on_message sAB 10 (some (quoteItem "a" 0.7 0.72))).2.1 ∧
    alookup "a" (on_message sAB 10
      (some (quoteItem "a" 0.7 0.72))).1.token_to_label = none ∧
    alookup "a" (on_message sAB 10
      (some (quoteItem "a" 0.7 0.72))).1.token_to_trade = none ∧
    (on_message (on_message sAB 10 (some (quoteItem "a" 0.7 0.72))).1 20
      (some (quoteItem "a" 0.8 0.9))).2.1 = [] ∧
    (on_message (on_message sAB 10 (some (quoteItem "a" 0.7 0.72))).1 20
      (some (quoteItem "a" 0.8 0.9))).1
      = { (on_message sAB 10 (some (quoteItem "a" 0.7 0.72))).1 with
          ws_msg_count :=
            (on_message sAB 10 (some (quoteItem "a" 0.7 0.72))).1.ws_msg_count + 1 } ∧
    (close_slot_trades (on_message sAB 10 (some (quoteItem "a" 0.7 0.72))).1 slotS 20).2.all
      (fun e => !closesId tradeA.trade_id e) = true ∧
    alookup tradeA.trade_id
      (close_slot_trades (on_message sAB 10 (some (quoteItem "a" 0.7 0.72))).1 slotS
        20).1.db.rows
      = alookup tradeA.trade_id (on_message sAB 10 (some (quoteItem "a" 0.7 0.72))).1.db.rows ∧
    (close_slot_trades (on_message sAB 10 (some (quoteItem "a" 0.7 0.72))).1 slotS 20).2.all
      (fun e => match e with
        | Effect.unsubscribeOp ls => decide ("a" ∉ ls)
        | _ => true) = true :=
  (C1_close_at_most_once sAB slotS 10 20 "a" "BTC YES" tradeA 0.7 0.72 0.8 0.9
    rfl rfl (by decide) (by decide)).2.2.1 rfl (by decide)

/- ── C5: the expiry-sweep exit price ───────────────────────────────── -/

/-- C5: a trade closed by the expiry sweep exits at the last known bid in
PriceState for its token, or at its entry price when no tick was ever
observed; in the no-tick case the recorded pnl_usd is exactly
(exit - entry) * shares = 0. -/
theorem C5_expiry_exit_price (s : MonState) (slot : Slot) (now : ℤ)
    (t : String) (tr : TradeInfo) (row : TradeRow)
    (hnd : (s.token_to_trade.map Prod.fst).Nodup)
    (ht : alookup t s.token_to_trade = some tr)
    (hslot : tr.slot_label = slot.label)
    (hopen : tr.closed = false)
    (hrow : alookup tr.trade_id s.db.rows = some row)
    (hentry : row.entry_price = tr.entry_price)
    (huniq : ∀ p ∈ s.token_to_trade, p.1 ≠ t → p.2.trade_id ≠ tr.trade_id) :
    Effect.dbCloseCall tr.trade_id
        (((alookup t s.prices).map PriceEntry.bid).getD tr.entry_price) "slot_expired"
      ∈ (close_slot_trades s slot now).2 ∧
    (alookup tr.trade_id (close_slot_trades s slot now).1.db.rows).map TradeRow.exit_price
      = some (some (((alookup t s.prices).map PriceEntry.bid).getD tr.entry_price)) ∧
    (alookup t s.prices = none →
      (alookup tr.trade_id (close_slot_trades s slot now).1.db.rows).map TradeRow.exit_price
        = some (some tr.entry_price) ∧
      (alookup tr.trade_id (close_slot_trades s slot now).1.db.rows).map TradeRow.pnl_usd
        = some 0) := by
  obtain ⟨heff, hdb, _, _⟩ :=
    close_slot_trades_closes s slot now t tr row hnd ht hslot hopen hrow huniq
  refine ⟨heff, by rw [hdb]; simp [closedRow], ?_⟩
  intro hnone
  rw [hdb]
  simp [closedRow, hnone, hentry]

/-- C5 witness: the no-tick case on the concrete state sAB (empty
PriceState): trade a exits at its entry price 0.6 with pnl 0. -/
theorem C5_expiry_exit_price_witness :
    Effect.dbCloseCall tradeA.trade_id
        (((alookup "a" sAB.prices).map PriceEntry.bid).getD tradeA.entry_price)
        "slot_expired"
      ∈ (close_slot_trades sAB slotS 3600).2 ∧
    (alookup tradeA.trade_id
        (close_slot_trades sAB slotS 3600).1.db.rows).map TradeRow.exit_price
      = some (some (((alookup "a" sAB.prices).map PriceEntry.bid).getD
          tradeA.entry_price)) ∧
    (alookup "a" sAB.prices = none →
      (alookup tradeA.trade_id
          (close_slot_trades sAB slotS 3600).1.db.rows).map TradeRow.exit_price
        = some (some tradeA.entry_price) ∧
      (alookup tradeA.trade_id
          (close_slot_trades sAB slotS 3600).1.db.rows).map TradeRow.pnl_usd
        = some 0) :=
  C5_expiry_exit_price sAB slotS 3600 "a" tradeA (mkRow "S" "BTC" "a" 0.6 50 0.65)
    (by decide) rfl rfl rfl rfl rfl (by decide)

/-- C3 witness: the invariant evaluated at the initial state and a token. -/
theorem C3_subscriptions_match_open_trades_witness :
    (alookup "x" (initState { rows := [], next_id := 1 }).token_to_label).isSome
      = (alookup "x" (initState { rows := [], next_id := 1 }).token_to_trade).isSome ∧
    ((alookup "x" (initState { rows := [], next_id := 1 }).token_to_trade).map
        TradeInfo.closed).getD false = false :=
  C3_subscriptions_match_open_trades _ (Reachable.init _) "x"

end CryptoMonitor
